import Mathlib

/-!
Verification development for the planning-and-scheduling engine of the
`ai-team-planner` repository (backend `Scheduler` class and `AIPlanner`
service).

Modelling conventions (shallow embedding):
* Instants are integers counting minutes from an epoch placed at a Sunday
  00:00 on the single linear timeline the system uses.  dayjs operations are
  modelled at minute resolution (`second(0)` is applied by the code wherever
  a slot is produced, and sub-minute components never influence any of the
  compared quantities at the granularity of the claims).
* `dayjs().add(1, 'day')` becomes `now + 1440` for an arbitrary parameter
  `now : Int` threaded through every function that calls `dayjs()`.
* JS objects used as string-keyed maps (`memberSchedules`, `memberWorkload`)
  are association lists preserving insertion order, exactly as `Object.keys`
  enumerates them.
* `Array.prototype.sort` with a subtraction comparator is a stable sort by
  the comparator's key; any stable sorting algorithm produces the identical
  output, so it is embedded as a stable insertion sort.
* The unbounded `while` loops of the source are embedded with explicit fuel.
  Loops that the source bounds (the due-date-guarded loop of
  `findNextWorkingSlot`, the day-counting loop of `calculateAvailableHours`)
  receive fuel that provably exceeds the iteration count, so the embedding
  is total and faithful.  The working-day loop of `AIPlanner.scheduleTasks`
  has no bound in the source and diverges on an empty `daysOfWeek`; its
  embedding returns `Option`, with `none` modelling divergence (fuel 7
  suffices whenever some valid weekday is present, which is proved below).
* Floating point arithmetic of the feasibility check is modelled with `ℚ`.
-/

namespace AITeamPlanner

/-! ## Time model (minutes since a Sunday 00:00) -/

/-- Minute-of-day of an instant, in `[0, 1440)`. -/
def tod (t : Int) : Int := t % 1440

/-- Midnight of the day containing `t`. -/
def dayStart (t : Int) : Int := t - t % 1440

/-- Day index (number of whole days since the epoch Sunday). -/
def dayNumber (t : Int) : Int := t / 1440

/-- dayjs `.hour()`: the hour of the day, `0..23`. -/
def hourOf (t : Int) : Int := t % 1440 / 60

/-- dayjs `.day()`: day of week, `0 = Sunday .. 6 = Saturday`. -/
def dayOfWeekN (t : Int) : Nat := ((t / 1440) % 7).toNat

/-- dayjs `.hour(h).minute(0).second(0)`: same day, at `h:00`. -/
def atHour (t : Int) (h : Nat) : Int := dayStart t + 60 * h

/-- dayjs `.hour(h)` alone: same day, hour replaced, minute kept. -/
def setHour (t : Int) (h : Nat) : Int := dayStart t + 60 * h + t % 1440 % 60

/-! ## Data model -/

/-- The `scheduled` block of an `AISubtask`.  The source stores ISO datetime
strings; they are modelled as instants.  The source field `end` is a Lean
keyword and is called `stop` here. -/
structure Scheduled where
  start : Int
  stop : Int
deriving DecidableEq, Repr

/-- `AISubtask` from `types.ts`. -/
structure AISubtask where
  part : Int
  title : String
  details : String
  assignee : String
  estimatedMinutes : Int
  scheduled : Scheduled
deriving DecidableEq, Repr

/-- `SchedulingConstraints` from `types.ts`.  Hours are `0..23` and days
`0..6` in the source's documented domain, hence `Nat` here; theorems add the
explicit upper bounds where they matter. -/
structure SchedulingConstraints where
  workHoursPerDay : Nat
  startHour : Nat
  endHour : Nat
  daysOfWeek : List Nat
deriving DecidableEq, Repr

/-- A team member as consumed by the planner (`name`, optional `role`). -/
structure PlanMember where
  name : String
  role : Option String
deriving DecidableEq, Repr

/-- The valid-constraint predicate of the spec: `daysOfWeek` a non-empty
subset of `0..6`. -/
def daysValid (days : List Nat) : Prop := days ≠ [] ∧ ∀ d ∈ days, d ≤ 6

instance (days : List Nat) : Decidable (daysValid days) := by
  unfold daysValid; infer_instance

/-! ## Association-list maps (JS objects in insertion order) -/

/-- Lookup in an insertion-ordered string map. -/
def lookupA : List (String × Int) → String → Option Int
  | [], _ => none
  | (k0, v0) :: rest, k => if k0 = k then some v0 else lookupA rest k

/-- `m[k] = v` on a JS object: overwrite in place, or append a new key. -/
def upsert : List (String × Int) → String → Int → List (String × Int)
  | [], k, v => [(k, v)]
  | (k0, v0) :: rest, k, v =>
    if k0 = k then (k0, v) :: rest else (k0, v0) :: upsert rest k v

/-- `m[k] += v` after zero-initialising a missing key (the
`if (!m[k]) m[k] = 0; m[k] += v` pattern; a stored `0` is falsy and gets
reset to `0`, which changes nothing). -/
def addWork (m : List (String × Int)) (k : String) (v : Int) :
    List (String × Int) :=
  match lookupA m k with
  | some old => upsert m k (old + v)
  | none => m ++ [(k, v)]

/-! ## Stable sorting (JS `Array.prototype.sort`) -/

/-- Stable insertion of `x` before the first element it should not follow. -/
def insertBy (le : α → α → Bool) (x : α) : List α → List α
  | [] => [x]
  | y :: ys => if le x y then x :: y :: ys else y :: insertBy le x ys

/-- Stable sort; models the (ES2019-stable) JS sort with a consistent
subtraction comparator, whose output any stable sort reproduces exactly. -/
def sortBy (le : α → α → Bool) : List α → List α
  | [] => []
  | x :: xs => insertBy le x (sortBy le xs)

/-! ## `Scheduler` (backend `types.ts`) -/

/-- The working-day loop of `Scheduler.findNextWorkingSlot`:
`while (!daysOfWeek.includes(slot.day()) && slot.isBefore(dueDate))
   slot = slot.add(1,'day').hour(startHour).minute(0).second(0)`.
Fuel-indexed; the wrapper passes fuel that provably exceeds the iteration
count (`findNextWorkingSlotLoop_exit`). -/
def findNextWorkingSlotLoop (days : List Nat) (sh : Nat) (due : Int) :
    Nat → Int → Int
  | 0, slot => slot
  | n + 1, slot =>
    if dayOfWeekN slot ∉ days ∧ slot < due then
      findNextWorkingSlotLoop days sh due n (atHour (slot + 1440) sh)
    else slot

/-- `Scheduler.findNextWorkingSlot`. -/
def findNextWorkingSlot (startTime due : Int) (c : SchedulingConstraints) :
    Int :=
  let slot :=
    if hourOf startTime < c.startHour then atHour startTime c.startHour
    else if (c.endHour : Int) ≤ hourOf startTime then
      atHour (startTime + 1440) c.startHour
    else startTime
  findNextWorkingSlotLoop c.daysOfWeek c.startHour due
    ((due - slot).toNat + 9) slot

/-- Comparator of `Scheduler.rescheduleTasks`' sort:
`(a, b) => a.part !== b.part ? a.part - b.part : b.estimatedMinutes - a.estimatedMinutes`. -/
def taskLe (a b : AISubtask) : Bool :=
  a.part < b.part || (a.part == b.part && b.estimatedMinutes ≤ a.estimatedMinutes)

/-- `memberSchedules[name] || dflt`: the stored cursor (always a truthy
dayjs object when present), or the default. -/
def cursorOr (sched : List (String × Int)) (name : String) (dflt : Int) : Int :=
  match lookupA sched name with
  | some v => v
  | none => dflt

/-- The scheduling fold of `Scheduler.rescheduleTasks` over the sorted task
list, threading the `memberSchedules` cursor map.  The source's
`console.warn` for slots after `dueDate - 1 day` has no semantic effect and
is omitted. -/
def rescheduleLoop (now due : Int) (c : SchedulingConstraints) :
    List AISubtask → List (String × Int) → List AISubtask
  | [], _ => []
  | t :: rest, sched =>
    let slot0 := cursorOr sched t.assignee (atHour (now + 1440) c.startHour)
    let startTime := findNextWorkingSlot slot0 due c
    let endTime := startTime + t.estimatedMinutes
    let t2 : AISubtask := { t with scheduled := ⟨startTime, endTime⟩ }
    t2 :: rescheduleLoop now due c rest (upsert sched t.assignee (endTime + 15))

/-- `Scheduler.rescheduleTasks`. -/
def rescheduleTasks (now : Int) (subtasks : List AISubtask) (due : Int)
    (c : SchedulingConstraints) : List AISubtask :=
  rescheduleLoop now due c (sortBy taskLe subtasks) []

/-- The day-counting loop of `Scheduler.calculateAvailableHours`, fuelled;
the wrapper's fuel provably exceeds the iteration count
(`availLoop_stable`). -/
def availLoop (days : List Nat) (hpd due : Int) : Nat → Int → Int
  | 0, _ => 0
  | n + 1, cur =>
    if cur < due then
      (if dayOfWeekN cur ∈ days then hpd else 0) + availLoop days hpd due n (cur + 1440)
    else 0

/-- `Scheduler.calculateAvailableHours`. -/
def calculateAvailableHours (now due : Int) (c : SchedulingConstraints) : Int :=
  let c0 := atHour (now + 1440) c.startHour
  availLoop c.daysOfWeek ((c.endHour : Int) - c.startHour) due
    ((due - c0).toNat + 2) c0

/-- Result record of `Scheduler.validateScheduleFeasibility`. -/
structure FeasibilityReport where
  feasible : Bool
  requiredHours : ℚ
  availableHours : ℚ
deriving DecidableEq, Repr

/-- `Scheduler.validateScheduleFeasibility`. -/
def validateScheduleFeasibility (now : Int) (subtasks : List AISubtask)
    (due : Int) (c : SchedulingConstraints) (memberCount : Nat) :
    FeasibilityReport :=
  let totalMinutes : Int := (subtasks.map (·.estimatedMinutes)).sum
  let requiredHours : ℚ := (totalMinutes : ℚ) / 60
  let availableHours : ℚ :=
    ((calculateAvailableHours now due c * (memberCount : Int) : Int) : ℚ)
  { feasible := decide (requiredHours ≤ availableHours * (4 / 5 : ℚ))
    requiredHours := requiredHours
    availableHours := availableHours }

/-- Workload comparator `(a, b) => memberWorkload[a] - memberWorkload[b]`
(every compared name is a key of the map; `getD 0` is never exercised). -/
def workLe (w : List (String × Int)) (a b : String) : Bool :=
  (lookupA w a).getD 0 ≤ (lookupA w b).getD 0

/-- First pass of `Scheduler.balanceWorkload`: total minutes per distinct
assignee name, accumulated left-to-right into a JS object whose keys stay in
first-seen insertion order. -/
def buildWorkload (ts : List AISubtask) : List (String × Int) :=
  ts.foldl (fun m t => addWork m t.assignee t.estimatedMinutes) []

/-- The reassignment fold of `Scheduler.balanceWorkload`: the source picks
`sortedMembers[memberIndex % sortedMembers.length]`, bumps that name's
running total, re-sorts the member array in place, and increments
`memberIndex`. -/
def balanceLoop : List AISubtask → List String → List (String × Int) → Nat →
    List AISubtask
  | [], _, _, _ => []
  | t :: rest, sorted, w, idx =>
    let assigned := sorted.getD (idx % sorted.length) ""
    let w2 := addWork w assigned t.estimatedMinutes
    { t with assignee := assigned } ::
      balanceLoop rest (sortBy (workLe w2) sorted) w2 (idx + 1)

/-- `Scheduler.balanceWorkload` (value-level semantics; the heap-level
mutation behaviour is modelled separately for the frame claim). -/
def balanceWorkload (subtasks : List AISubtask) : List AISubtask :=
  let w := buildWorkload subtasks
  let sorted := sortBy (workLe w) (w.map Prod.fst)
  balanceLoop subtasks sorted w 0

/-! ### Heap-level model of `balanceWorkload` for the frame claim

`balanceWorkload` copies the task *array* (`[...subtasks]`) but mutates the
`assignee` field of the task records themselves.  `store : Nat → AISubtask`
is the heap, and the input is a list of pointers into it. -/

/-- The mutating reassignment loop, acting on the heap. -/
def storeBalanceLoop : List Nat → List String → List (String × Int) → Nat →
    (Nat → AISubtask) → (Nat → AISubtask)
  | [], _, _, _, store => store
  | p :: rest, sorted, w, idx, store =>
    let assigned := sorted.getD (idx % sorted.length) ""
    let t := store p
    let w2 := addWork w assigned t.estimatedMinutes
    let store2 : Nat → AISubtask :=
      fun q => if q = p then { t with assignee := assigned } else store q
    storeBalanceLoop rest (sortBy (workLe w2) sorted) w2 (idx + 1) store2

/-- Heap-level `Scheduler.balanceWorkload`: returns the updated heap and the
returned array (a fresh array holding the same pointers, hence the same
pointer list). -/
def balanceWorkloadStore (store : Nat → AISubtask) (ptrs : List Nat) :
    (Nat → AISubtask) × List Nat :=
  let w := buildWorkload (ptrs.map store)
  let sorted := sortBy (workLe w) (w.map Prod.fst)
  (storeBalanceLoop ptrs sorted w 0 store, ptrs)

/-! ## `AIPlanner` (backend `services/aiPlanner.ts`) -/

/-- A candidate `scheduled` block coming from the untrusted decomposition
provider.  A datetime string is modelled by the instant it parses to;
`none` covers both a missing field and an unparseable string (the two cases
the code treats identically through `validateDateTime`). -/
structure RawScheduled where
  start : Option Int
  stop : Option Int
deriving DecidableEq, Repr

/-- A loosely-typed candidate subtask record, as consumed by
`AIPlanner.validateAndRepairPlan`.  `none` is a missing field; JS falsiness
of present-but-empty values (`0`, `""`) is handled where the code tests it. -/
structure RawSubtask where
  part : Option Int
  title : Option String
  details : Option String
  assignee : Option String
  estimatedMinutes : Option Int
  scheduled : Option RawScheduled
deriving DecidableEq, Repr

/-- `x || d` for a possibly-missing JS number (`0` is falsy). -/
def truthyInt : Option Int → Int → Int
  | some v, d => if v = 0 then d else v
  | none, d => d

/-- `x || d` for a possibly-missing JS string (`""` is falsy). -/
def truthyStr : Option String → String → String
  | some s, d => if s = "" then d else s
  | none, d => d

/-- `AIPlanner.validateDateTime`: a parseable datetime re-serialises to the
same instant; missing/unparseable input gives `null`. -/
def validateDateTime (d : Option Int) : Option Int := d

/-- Default `part`: `Math.floor(index / (subtasks.length / parts)) + 1`
(exact real division; with `parts = 0` the JS division by `Infinity` floors
to `0`). -/
def defaultPart (index len : Nat) (parts : Int) : Int :=
  if parts = 0 then 1 else ((index : Int) * parts) / (len : Int) + 1

/-- `AIPlanner.getDefaultStartTime`. -/
def getDefaultStartTime (now : Int) (index : Nat) (sh : Nat) : Int :=
  atHour (now + 1440) sh + (index : Int) * 120

/-- `AIPlanner.getDefaultEndTime`. -/
def getDefaultEndTime (now : Int) (index : Nat) (sh : Nat)
    (estimatedMinutes : Int) : Int :=
  getDefaultStartTime now index sh + estimatedMinutes

/-- `List.map` with the element index, mirroring `forEach((x, i) => ...)`. -/
def mapIdxFrom (f : Nat → α → β) : Nat → List α → List β
  | _, [] => []
  | i, x :: xs => f i x :: mapIdxFrom f (i + 1) xs

/-- Repair of one candidate record (the body of the `forEach` in
`AIPlanner.validateAndRepairPlan`). -/
def repairOne (now : Int) (len : Nat) (memberNames : List String)
    (parts : Int) (sh : Nat) (index : Nat) (subtask : RawSubtask) :
    AISubtask :=
  { part := truthyInt subtask.part (defaultPart index len parts)
    title := truthyStr subtask.title ("Task " ++ toString (index + 1))
    details := truthyStr subtask.details "No details provided"
    assignee :=
      match subtask.assignee with
      | some a =>
        if a ∈ memberNames then a
        else memberNames.getD (index % memberNames.length) ""
      | none => memberNames.getD (index % memberNames.length) ""
    estimatedMinutes :=
      match subtask.estimatedMinutes with
      | some m => if 0 < m then m else 60
      | none => 60
    scheduled :=
      ⟨(validateDateTime (subtask.scheduled.bind RawScheduled.start)).getD
          (getDefaultStartTime now index sh),
        (validateDateTime (subtask.scheduled.bind RawScheduled.stop)).getD
          (getDefaultEndTime now index sh
            (truthyInt subtask.estimatedMinutes 60))⟩ }

/-- `AIPlanner.validateAndRepairPlan` on the candidate subtask list (the
structural `plan.subtasks` check is a hard caller failure outside this
model). -/
def validateAndRepairPlan (now : Int) (raw : List RawSubtask)
    (memberNames : List String) (parts : Int) (sh : Nat) : List AISubtask :=
  mapIdxFrom (repairOne now raw.length memberNames parts sh) 0 raw

/-- Re-reading a repaired subtask as a candidate record (every field is
present; the scheduled instants re-parse to themselves). -/
def toRaw (t : AISubtask) : RawSubtask :=
  { part := some t.part
    title := some t.title
    details := some t.details
    assignee := some t.assignee
    estimatedMinutes := some t.estimatedMinutes
    scheduled := some ⟨some t.scheduled.start, some t.scheduled.stop⟩ }

/-- The fixed template table of `AIPlanner.generatePartTasks`:
(title, details, minutes). -/
def taskTemplates : List (String × String × Int) :=
  [("Research and Planning", "Initial research and planning phase", 120),
   ("Analysis and Investigation", "Detailed analysis of requirements", 180),
   ("Development and Creation", "Main development or creation work", 240),
   ("Review and Testing", "Quality review and testing", 90),
   ("Documentation", "Create documentation and reports", 60),
   ("Finalization", "Final review and polish", 60)]

/-- The fields `generatePartTasks` actually sets on its
`Partial<AISubtask>` records (`assignee` and `scheduled` are left absent). -/
structure PartialSubtask where
  part : Int
  title : String
  details : String
  estimatedMinutes : Int
deriving DecidableEq, Repr

/-- `AIPlanner.generatePartTasks` (the `description` argument is unused by
the source body). -/
def generatePartTasks (partNumber : Int) (tasksPerPart : Nat)
    (title : String) : List PartialSubtask :=
  (List.range tasksPerPart).map fun i =>
    let tpl := taskTemplates.getD (i % taskTemplates.length) ("", "", 0)
    { part := partNumber
      title := "Part " ++ toString partNumber ++ ": " ++ tpl.1
      details := tpl.2.1 ++ " for " ++ title
      estimatedMinutes := tpl.2.2 }

/-- The completion step inside `generateFallbackPlan`'s part loop: fill the
fields `generatePartTasks` left absent (`assignee`, `scheduled`) and apply
`||`-defaults to the present ones. -/
def completePartTask (now : Int) (partNum : Int) (members : List PlanMember)
    (t : PartialSubtask) : AISubtask :=
  { part := if t.part = 0 then partNum else t.part
    title :=
      if t.title = "" then "Part " ++ toString partNum ++ " Task" else t.title
    details := if t.details = "" then "No details provided" else t.details
    assignee := (members.headD ⟨"", none⟩).name
    estimatedMinutes := if t.estimatedMinutes = 0 then 60 else t.estimatedMinutes
    scheduled := ⟨now + 1440, now + 1440 + 60⟩ }

/-- The fixed role-to-keyword table of `AIPlanner.assignMembersToTasks`. -/
def rolePreferences : List (String × List String) :=
  [("Research", ["Research", "Analysis", "Investigation"]),
   ("Writing", ["Documentation", "Creation", "Development"]),
   ("Review", ["Review", "Testing", "Finalization"]),
   ("Analysis", ["Analysis", "Investigation", "Research"]),
   ("Design", ["Development", "Creation", "Planning"])]

/-- Lookup in the role table (`rolePreferences[member.role]`). -/
def lookupPrefs : List (String × List String) → String → Option (List String)
  | [], _ => none
  | (k, v) :: rest, r => if k = r then some v else lookupPrefs rest r

/-- Does the second character list start with the first? -/
def prefixEq : List Char → List Char → Bool
  | [], _ => true
  | _ :: _, [] => false
  | a :: as, b :: bs => a == b && prefixEq as bs

/-- Does the second character list contain the first as a contiguous run? -/
def containsSub (sub : List Char) : List Char → Bool
  | [] => prefixEq sub []
  | c :: rest => prefixEq sub (c :: rest) || containsSub sub rest

/-- `text.includes(sub)` on strings. -/
def containsStr (s sub : String) : Bool := containsSub sub.data s.data

/-- The inner member scan of `assignMembersToTasks` (first match wins, as
the `break` does). -/
def matchingMember (taskText : String) : List PlanMember → Option PlanMember
  | [] => none
  | mem :: rest =>
    match mem.role with
    | some r =>
      match lookupPrefs rolePreferences r with
      | some prefs =>
        if prefs.any fun p => containsStr taskText p.toLower then some mem
        else matchingMember taskText rest
      | none => matchingMember taskText rest
    | none => matchingMember taskText rest

/-- `AIPlanner.assignMembersToTasks` (the source mutates `task.assignee`;
value-level result).  `members` is non-empty in every reachable call (the
source would crash on `members[...]` otherwise). -/
def assignMembersToTasks (subtasks : List AISubtask)
    (members : List PlanMember) : List AISubtask :=
  mapIdxFrom
    (fun index task =>
      let defaultMem := members.getD (index % members.length) ⟨"", none⟩
      let assigned :=
        if task.title ≠ "" ∧ task.details ≠ "" then
          match matchingMember ((task.title ++ " " ++ task.details).toLower)
              members with
          | some mem => mem
          | none => defaultMem
        else defaultMem
      { task with assignee := assigned.name })
    0 subtasks

/-- The working-day loop of `AIPlanner.scheduleTasks`
(`while (!daysOfWeek.includes(slot.day())) slot = slot.add(1,'day').hour(sh)...`).
The source loop has no bound and diverges when no listed weekday is
reachable; `none` models that divergence.  Fuel 7 always suffices when
`daysOfWeek` holds a valid weekday (`nextWorkingDayLoop_isSome`). -/
def nextWorkingDayLoop (days : List Nat) (sh : Nat) : Nat → Int → Option Int
  | 0, slot => if dayOfWeekN slot ∈ days then some slot else none
  | n + 1, slot =>
    if dayOfWeekN slot ∈ days then some slot
    else nextWorkingDayLoop days sh n (atHour (slot + 1440) sh)

/-- The scheduling fold of `AIPlanner.scheduleTasks`, threading the
`memberSchedules` cursor map.  A task with falsy `assignee` or
`estimatedMinutes` is skipped unchanged. -/
def scheduleTasksLoop (now : Int) (c : SchedulingConstraints) :
    List AISubtask → List (String × Int) → Option (List AISubtask)
  | [], _ => some []
  | t :: rest, sched =>
    if t.assignee = "" ∨ t.estimatedMinutes = 0 then
      (scheduleTasksLoop now c rest sched).map (t :: ·)
    else
      let slot0 := cursorOr sched t.assignee (atHour (now + 1440) c.startHour)
      match nextWorkingDayLoop c.daysOfWeek c.startHour 7 slot0 with
      | none => none
      | some s1 =>
        let dayEndTime := setHour s1 c.endHour
        let taskEndTime := s1 + t.estimatedMinutes
        let startStep : Option Int :=
          if dayEndTime < taskEndTime then
            nextWorkingDayLoop c.daysOfWeek c.startHour 7
              (atHour (s1 + 1440) c.startHour)
          else some s1
        match startStep with
        | none => none
        | some s2 =>
          let endTime := s2 + t.estimatedMinutes
          let t2 : AISubtask := { t with scheduled := ⟨s2, endTime⟩ }
          (scheduleTasksLoop now c rest
              (upsert sched t.assignee (endTime + 15))).map (t2 :: ·)

/-- `AIPlanner.scheduleTasks` (the `dueDate` parameter is unused by the
source body; the source mutates `subtasks` in place and this embedding
returns the updated list in input order). -/
def scheduleTasks (now : Int) (subtasks : List AISubtask) (due : Int)
    (c : SchedulingConstraints) : Option (List AISubtask) :=
  scheduleTasksLoop now c subtasks []

/-- `AIPlanner.generateFallbackPlan`.  With `parts = 0` the source computes
`tasksPerPart = Infinity` and never terminates; every claim fixes
`parts ≥ 1`, where `Math.floor(8 / parts)` is Nat division. -/
def generateFallbackPlan (now : Int) (title description : String)
    (parts : Nat) (members : List PlanMember) (due : Int)
    (c : SchedulingConstraints) : Option (List AISubtask) :=
  let tasksPerPart := max 2 (8 / parts)
  let subtasks :=
    (List.range parts).flatMap fun p0 =>
      (generatePartTasks ((p0 : Int) + 1) tasksPerPart title).map
        (completePartTask now ((p0 : Int) + 1) members)
  let assigned := assignMembersToTasks subtasks members
  scheduleTasks now assigned due c

/-! ## Arithmetic facts about the time model -/

theorem tod_nonneg (t : Int) : 0 ≤ tod t := by
  unfold tod; omega

theorem tod_lt (t : Int) : tod t < 1440 := by
  unfold tod; omega

theorem tod_atHour (t : Int) {h : Nat} (hh : h ≤ 23) :
    tod (atHour t h) = 60 * h := by
  unfold tod atHour dayStart; omega

theorem dayNumber_atHour (t : Int) {h : Nat} (hh : h ≤ 23) :
    dayNumber (atHour t h) = dayNumber t := by
  unfold dayNumber atHour dayStart; omega

theorem dayNumber_add_1440 (t : Int) : dayNumber (t + 1440) = dayNumber t + 1 := by
  unfold dayNumber; omega

theorem dayNumber_add_small (t k : Int) (h0 : 0 ≤ k) (h1 : tod t + k < 1440) :
    dayNumber (t + k) = dayNumber t := by
  unfold dayNumber tod at *; omega

theorem tod_add_small (t k : Int) (h0 : 0 ≤ k) (h1 : tod t + k < 1440) :
    tod (t + k) = tod t + k := by
  unfold tod at *; omega

theorem dayOfWeekN_eq_of_dayNumber (s t : Int) (h : dayNumber s = dayNumber t) :
    dayOfWeekN s = dayOfWeekN t := by
  unfold dayOfWeekN; unfold dayNumber at h; omega

theorem le_atHour_advance (t : Int) (h : Nat) : t + 1 ≤ atHour (t + 1440) h := by
  unfold atHour dayStart; omega

theorem hourOf_eq_div (t : Int) : hourOf t = tod t / 60 := rfl

theorem hourOf_of_tod_eq (t : Int) {h : Nat} (hh : h ≤ 23)
    (ht : tod t = 60 * h) : hourOf t = h := by
  unfold hourOf; unfold tod at ht; omega

theorem tod_ge_of_hourOf_ge (t : Int) (h : Nat) (hge : (h : Int) ≤ hourOf t) :
    60 * h ≤ tod t := by
  unfold hourOf at hge; unfold tod; omega

/-! ## Map lemmas -/

theorem lookupA_upsert_self (m : List (String × Int)) (k : String) (v : Int) :
    lookupA (upsert m k v) k = some v := by
  induction m with
  | nil => simp [lookupA, upsert]
  | cons p rest ih =>
    obtain ⟨k0, v0⟩ := p
    by_cases h : k0 = k
    · simp [lookupA, upsert, h]
    · simp [lookupA, upsert, h, ih]

theorem lookupA_upsert_ne (m : List (String × Int)) (k k2 : String) (v : Int)
    (h : k ≠ k2) : lookupA (upsert m k v) k2 = lookupA m k2 := by
  induction m with
  | nil => simp [lookupA, upsert, h]
  | cons p rest ih =>
    obtain ⟨k0, v0⟩ := p
    by_cases h0 : k0 = k
    · subst h0; simp [lookupA, upsert, h]
    · simp [lookupA, upsert, h0, ih]

/-! ## `findNextWorkingSlot`: growth, exit condition, hour window -/

theorem findNextWorkingSlotLoop_ge (days : List Nat) (sh : Nat) (due : Int) :
    ∀ (n : Nat) (slot : Int),
      slot ≤ findNextWorkingSlotLoop days sh due n slot := by
  intro n
  induction n with
  | zero => intro slot; exact le_refl _
  | succ n ih =>
    intro slot
    unfold findNextWorkingSlotLoop
    by_cases h : dayOfWeekN slot ∉ days ∧ slot < due
    · simp only [if_pos h]
      have h1 := le_atHour_advance slot sh
      have h2 := ih (atHour (slot + 1440) sh)
      omega
    · simp only [if_neg h]; exact le_refl _

theorem findNextWorkingSlotLoop_shape (days : List Nat) {sh : Nat}
    (hsh : sh ≤ 23) (due : Int) :
    ∀ (n : Nat) (slot : Int),
      findNextWorkingSlotLoop days sh due n slot = slot ∨
        tod (findNextWorkingSlotLoop days sh due n slot) = 60 * sh := by
  intro n
  induction n with
  | zero => intro slot; exact Or.inl rfl
  | succ n ih =>
    intro slot
    unfold findNextWorkingSlotLoop
    by_cases h : dayOfWeekN slot ∉ days ∧ slot < due
    · simp only [if_pos h]
      rcases ih (atHour (slot + 1440) sh) with h1 | h1
      · rw [h1]; exact Or.inr (tod_atHour _ hsh)
      · exact Or.inr h1
    · rw [if_neg h]; exact Or.inl rfl

theorem findNextWorkingSlotLoop_exit (days : List Nat) (sh : Nat) (due : Int) :
    ∀ (n : Nat) (slot : Int), (due - slot).toNat < n →
      dayOfWeekN (findNextWorkingSlotLoop days sh due n slot) ∈ days ∨
        ¬ findNextWorkingSlotLoop days sh due n slot < due := by
  intro n
  induction n with
  | zero => intro slot h; omega
  | succ n ih =>
    intro slot h
    unfold findNextWorkingSlotLoop
    by_cases hc : dayOfWeekN slot ∉ days ∧ slot < due
    · simp only [if_pos hc]
      apply ih
      have h1 := le_atHour_advance slot sh
      omega
    · simp only [if_neg hc]
      by_cases hm : dayOfWeekN slot ∈ days
      · exact Or.inl hm
      · right; intro hlt; exact hc ⟨hm, hlt⟩

theorem findNextWorkingSlot_ge (startTime due : Int) (c : SchedulingConstraints) :
    startTime ≤ findNextWorkingSlot startTime due c := by
  unfold findNextWorkingSlot
  by_cases h1 : hourOf startTime < (c.startHour : Int)
  · simp only [if_pos h1]
    have hb : startTime ≤ atHour startTime c.startHour := by
      unfold hourOf at h1; unfold atHour dayStart; omega
    exact le_trans hb (findNextWorkingSlotLoop_ge _ _ _ _ _)
  · simp only [if_neg h1]
    by_cases h2 : (c.endHour : Int) ≤ hourOf startTime
    · simp only [if_pos h2]
      have hb : startTime ≤ atHour (startTime + 1440) c.startHour := by
        have := le_atHour_advance startTime c.startHour; omega
      exact le_trans hb (findNextWorkingSlotLoop_ge _ _ _ _ _)
    · simp only [if_neg h2]
      exact findNextWorkingSlotLoop_ge _ _ _ _ _

theorem findNextWorkingSlot_hour (startTime due : Int)
    (c : SchedulingConstraints) (hlt : c.startHour < c.endHour)
    (hhi : c.endHour ≤ 23) :
    (c.startHour : Int) ≤ hourOf (findNextWorkingSlot startTime due c) ∧
      hourOf (findNextWorkingSlot startTime due c) < c.endHour := by
  have hsh : c.startHour ≤ 23 := by omega
  unfold findNextWorkingSlot
  have key : ∀ s : Int, (c.startHour : Int) ≤ hourOf s → hourOf s < c.endHour →
      (c.startHour : Int) ≤
          hourOf (findNextWorkingSlotLoop c.daysOfWeek c.startHour due
            ((due - s).toNat + 9) s) ∧
        hourOf (findNextWorkingSlotLoop c.daysOfWeek c.startHour due
            ((due - s).toNat + 9) s) < c.endHour := by
    intro s hs1 hs2
    rcases findNextWorkingSlotLoop_shape c.daysOfWeek hsh due
        ((due - s).toNat + 9) s with h | h
    · rw [h]; exact ⟨hs1, hs2⟩
    · rw [hourOf_of_tod_eq _ hsh h]; exact ⟨le_refl _, by exact_mod_cast hlt⟩
  by_cases h1 : hourOf startTime < (c.startHour : Int)
  · simp only [if_pos h1]
    apply key
    · rw [hourOf_of_tod_eq _ hsh (tod_atHour _ hsh)]
    · rw [hourOf_of_tod_eq _ hsh (tod_atHour _ hsh)]; exact_mod_cast hlt
  · simp only [if_neg h1]
    by_cases h2 : (c.endHour : Int) ≤ hourOf startTime
    · simp only [if_pos h2]
      apply key
      · rw [hourOf_of_tod_eq _ hsh (tod_atHour _ hsh)]
      · rw [hourOf_of_tod_eq _ hsh (tod_atHour _ hsh)]; exact_mod_cast hlt
    · simp only [if_neg h2]
      exact key startTime (by omega) (by omega)

theorem findNextWorkingSlot_exit (startTime due : Int)
    (c : SchedulingConstraints) :
    dayOfWeekN (findNextWorkingSlot startTime due c) ∈ c.daysOfWeek ∨
      ¬ findNextWorkingSlot startTime due c < due := by
  unfold findNextWorkingSlot
  by_cases h1 : hourOf startTime < (c.startHour : Int)
  · simp only [if_pos h1]; apply findNextWorkingSlotLoop_exit; omega
  · simp only [if_neg h1]
    by_cases h2 : (c.endHour : Int) ≤ hourOf startTime
    · simp only [if_pos h2]; apply findNextWorkingSlotLoop_exit; omega
    · simp only [if_neg h2]; apply findNextWorkingSlotLoop_exit; omega

/-! ## Per-member separation of the `Scheduler.rescheduleTasks` pass -/

/-- Interval separation: `a` ends, and after a 15-minute buffer `b` starts. -/
def sep15 (a b : AISubtask) : Prop :=
  a.scheduled.stop + 15 ≤ b.scheduled.start

/-- Every task emitted by the reschedule fold carries a slot produced by
`findNextWorkingSlot` and an end equal to start plus duration. -/
theorem rescheduleLoop_mem (now due : Int) (c : SchedulingConstraints) :
    ∀ (ts : List AISubtask) (sched : List (String × Int)) (x : AISubtask),
      x ∈ rescheduleLoop now due c ts sched →
      ∃ s0, x.scheduled.start = findNextWorkingSlot s0 due c ∧
        x.scheduled.stop = x.scheduled.start + x.estimatedMinutes := by
  intro ts
  induction ts with
  | nil => intro sched x hx; simp [rescheduleLoop] at hx
  | cons t rest ih =>
    intro sched x hx
    simp only [rescheduleLoop] at hx
    rcases List.mem_cons.mp hx with h | h
    · subst h; exact ⟨_, rfl, rfl⟩
    · exact ih _ x h

/-- Cursor invariant of the reschedule fold: per member, emitted intervals
are pairwise separated by the buffer, and all start at or after the
member's stored cursor. -/
theorem rescheduleLoop_sep (now due : Int) (c : SchedulingConstraints) :
    ∀ (ts : List AISubtask) (sched : List (String × Int)),
      (∀ t ∈ ts, 1 ≤ t.estimatedMinutes) → ∀ m : String,
      ((rescheduleLoop now due c ts sched).filter
          (fun t => t.assignee == m)).Pairwise sep15 ∧
      ∀ cur, lookupA sched m = some cur →
        ∀ x ∈ (rescheduleLoop now due c ts sched).filter
            (fun t => t.assignee == m), cur ≤ x.scheduled.start := by
  intro ts
  induction ts with
  | nil =>
    intro sched hmin m
    refine ⟨by simp [rescheduleLoop], ?_⟩
    intro cur hcur x hx
    simp [rescheduleLoop] at hx
  | cons t rest ih =>
    intro sched hmin m
    have hd : 1 ≤ t.estimatedMinutes := hmin t (List.mem_cons_self t rest)
    have hrest : ∀ u ∈ rest, 1 ≤ u.estimatedMinutes := fun u hu =>
      hmin u (List.mem_cons_of_mem t hu)
    simp only [rescheduleLoop]
    set slot0 := cursorOr sched t.assignee (atHour (now + 1440) c.startHour)
      with hslot0
    set st := findNextWorkingSlot slot0 due c with hst
    set sched2 := upsert sched t.assignee (st + t.estimatedMinutes + 15)
      with hsched2
    have hstge : slot0 ≤ st := findNextWorkingSlot_ge slot0 due c
    obtain ⟨ihP, ihC⟩ := ih sched2 hrest m
    by_cases hm : t.assignee = m
    · have hfil :
          (({ t with scheduled := ⟨st, st + t.estimatedMinutes⟩ } : AISubtask) ::
              rescheduleLoop now due c rest sched2).filter
            (fun u => u.assignee == m) =
          ({ t with scheduled := ⟨st, st + t.estimatedMinutes⟩ } : AISubtask) ::
            (rescheduleLoop now due c rest sched2).filter
              (fun u => u.assignee == m) := by
        rw [List.filter_cons_of_pos]
        simp [hm]
      rw [hfil]
      have hcur2 : lookupA sched2 m = some (st + t.estimatedMinutes + 15) := by
        rw [hsched2, ← hm]
        exact lookupA_upsert_self sched t.assignee _
      have hafter : ∀ x ∈ (rescheduleLoop now due c rest sched2).filter
          (fun u => u.assignee == m),
          st + t.estimatedMinutes + 15 ≤ x.scheduled.start :=
        fun x hx => ihC _ hcur2 x hx
      constructor
      · rw [List.pairwise_cons]
        exact ⟨fun x hx => by
          have := hafter x hx
          unfold sep15
          simpa using this, ihP⟩
      · intro cur hcur x hx
        have hslotcur : slot0 = cur := by
          rw [hslot0]; unfold cursorOr; rw [hm, hcur]
        rcases List.mem_cons.mp hx with h | h
        · subst h; simpa [hslotcur] using hstge
        · have := hafter x h; omega
    · have hfil :
          (({ t with scheduled := ⟨st, st + t.estimatedMinutes⟩ } : AISubtask) ::
              rescheduleLoop now due c rest sched2).filter
            (fun u => u.assignee == m) =
          (rescheduleLoop now due c rest sched2).filter
            (fun u => u.assignee == m) := by
        rw [List.filter_cons_of_neg]
        simp [hm]
      rw [hfil]
      have hlook : lookupA sched2 m = lookupA sched m :=
        lookupA_upsert_ne sched t.assignee m _ hm
      exact ⟨ihP, fun cur hcur x hx => ihC cur (hlook ▸ hcur) x hx⟩

/-! ## The working-day loop of `AIPlanner.scheduleTasks` -/

theorem nextWorkingDayLoop_mem (days : List Nat) (sh : Nat) :
    ∀ (n : Nat) (s r : Int), nextWorkingDayLoop days sh n s = some r →
      dayOfWeekN r ∈ days := by
  intro n
  induction n with
  | zero =>
    intro s r h
    unfold nextWorkingDayLoop at h
    by_cases hm : dayOfWeekN s ∈ days
    · rw [if_pos hm] at h; cases h; exact hm
    · rw [if_neg hm] at h; simp at h
  | succ n ih =>
    intro s r h
    unfold nextWorkingDayLoop at h
    by_cases hm : dayOfWeekN s ∈ days
    · rw [if_pos hm] at h; cases h; exact hm
    · rw [if_neg hm] at h; exact ih _ r h

theorem nextWorkingDayLoop_ge (days : List Nat) {sh : Nat} (hsh : sh ≤ 23) :
    ∀ (n : Nat) (s r : Int), nextWorkingDayLoop days sh n s = some r →
      s ≤ r ∧ (r = s ∨ tod r = 60 * sh) := by
  intro n
  induction n with
  | zero =>
    intro s r h
    unfold nextWorkingDayLoop at h
    by_cases hm : dayOfWeekN s ∈ days
    · rw [if_pos hm] at h; cases h; exact ⟨le_refl _, Or.inl rfl⟩
    · rw [if_neg hm] at h; simp at h
  | succ n ih =>
    intro s r h
    unfold nextWorkingDayLoop at h
    by_cases hm : dayOfWeekN s ∈ days
    · rw [if_pos hm] at h; cases h; exact ⟨le_refl _, Or.inl rfl⟩
    · rw [if_neg hm] at h
      obtain ⟨h1, h2⟩ := ih _ r h
      have h3 := le_atHour_advance s sh
      refine ⟨by omega, Or.inr ?_⟩
      rcases h2 with h2 | h2
      · rw [h2]; exact tod_atHour _ hsh
      · exact h2

theorem nextWorkingDayLoop_isSome_aux (days : List Nat) {sh : Nat}
    (hsh : sh ≤ 23) :
    ∀ (n : Nat) (s : Int),
      (∃ j : Nat, j ≤ n ∧ ((dayNumber s + (j : Int)) % 7).toNat ∈ days) →
      (nextWorkingDayLoop days sh n s).isSome := by
  intro n
  induction n with
  | zero =>
    intro s ⟨j, hj, hmem⟩
    have hj0 : j = 0 := by omega
    subst hj0
    have : dayOfWeekN s ∈ days := by
      unfold dayOfWeekN
      unfold dayNumber at hmem
      simpa using hmem
    unfold nextWorkingDayLoop
    rw [if_pos this]
    rfl
  | succ n ih =>
    intro s ⟨j, hj, hmem⟩
    unfold nextWorkingDayLoop
    by_cases hm : dayOfWeekN s ∈ days
    · rw [if_pos hm]; rfl
    · rw [if_neg hm]
      have hj0 : j ≠ 0 := by
        intro h
        subst h
        apply hm
        unfold dayOfWeekN
        unfold dayNumber at hmem
        simpa using hmem
      apply ih
      refine ⟨j - 1, by omega, ?_⟩
      have hdn : dayNumber (atHour (s + 1440) sh) = dayNumber s + 1 := by
        rw [dayNumber_atHour _ hsh, dayNumber_add_1440]
      rw [hdn]
      have harith : dayNumber s + 1 + ((j - 1 : Nat) : Int) =
          dayNumber s + (j : Int) := by
        have : (1 : Int) ≤ (j : Int) := by exact_mod_cast Nat.one_le_iff_ne_zero.mpr hj0
        omega
      rw [harith]
      exact hmem

theorem nextWorkingDayLoop_isSome (days : List Nat) {sh : Nat} (hsh : sh ≤ 23)
    (hv : daysValid days) (s : Int) :
    (nextWorkingDayLoop days sh 7 s).isSome := by
  obtain ⟨hne, hub⟩ := hv
  obtain ⟨d, rest, hd⟩ : ∃ d rest, days = d :: rest := by
    cases days with
    | nil => exact absurd rfl hne
    | cons d rest => exact ⟨d, rest, rfl⟩
  have hdmem : d ∈ days := by rw [hd]; exact List.mem_cons_self d rest
  have hd6 : d ≤ 6 := hub d hdmem
  apply nextWorkingDayLoop_isSome_aux days hsh
  refine ⟨(((d : Int) - dayNumber s) % 7).toNat, by omega, ?_⟩
  have : ((dayNumber s + ((((d : Int) - dayNumber s) % 7).toNat : Int)) % 7).toNat
      = d := by
    have hnn : 0 ≤ ((d : Int) - dayNumber s) % 7 := by omega
    rw [Int.toNat_of_nonneg hnn]
    omega
  rw [this]
  exact hdmem

/-! ## Facts about the `AIPlanner.scheduleTasks` fold -/

theorem scheduleTasksLoop_isSome (now : Int) (c : SchedulingConstraints)
    (hv : daysValid c.daysOfWeek) (hsh : c.startHour ≤ 23) :
    ∀ (ts : List AISubtask) (sched : List (String × Int)),
      (scheduleTasksLoop now c ts sched).isSome := by
  intro ts
  induction ts with
  | nil => intro sched; rfl
  | cons t rest ih =>
    intro sched
    simp only [scheduleTasksLoop]
    by_cases hskip : t.assignee = "" ∨ t.estimatedMinutes = 0
    · rw [if_pos hskip]
      rcases Option.isSome_iff_exists.mp (ih sched) with ⟨out, hout⟩
      rw [hout]; rfl
    · rw [if_neg hskip]
      rcases Option.isSome_iff_exists.mp
          (nextWorkingDayLoop_isSome c.daysOfWeek hsh hv
            (cursorOr sched t.assignee (atHour (now + 1440) c.startHour)))
        with ⟨s1, hs1⟩
      rw [hs1]
      simp only
      by_cases hfits : setHour s1 c.endHour < s1 + t.estimatedMinutes
      · rw [if_pos hfits]
        rcases Option.isSome_iff_exists.mp
            (nextWorkingDayLoop_isSome c.daysOfWeek hsh hv
              (atHour (s1 + 1440) c.startHour)) with ⟨s2, hs2⟩
        rw [hs2]
        simp only
        rcases Option.isSome_iff_exists.mp (ih _) with ⟨out, hout⟩
        rw [hout]; rfl
      · rw [if_neg hfits]
        simp only
        rcases Option.isSome_iff_exists.mp (ih _) with ⟨out, hout⟩
        rw [hout]; rfl

theorem scheduleTasksLoop_length (now : Int) (c : SchedulingConstraints) :
    ∀ (ts : List AISubtask) (sched : List (String × Int)) (out : List AISubtask),
      scheduleTasksLoop now c ts sched = some out → out.length = ts.length := by
  intro ts
  induction ts with
  | nil =>
    intro sched out h
    simp only [scheduleTasksLoop] at h
    cases h; rfl
  | cons t rest ih =>
    intro sched out h
    simp only [scheduleTasksLoop] at h
    by_cases hskip : t.assignee = "" ∨ t.estimatedMinutes = 0
    · rw [if_pos hskip] at h
      rcases Option.map_eq_some'.mp h with ⟨out2, hout2, heq⟩
      subst heq
      simp [ih sched out2 hout2]
    · rw [if_neg hskip] at h
      cases hs1 : nextWorkingDayLoop c.daysOfWeek c.startHour 7
          (cursorOr sched t.assignee (atHour (now + 1440) c.startHour)) with
      | none => rw [hs1] at h; simp at h
      | some s1 =>
        rw [hs1] at h
        simp only at h
        by_cases hfits : setHour s1 c.endHour < s1 + t.estimatedMinutes
        · rw [if_pos hfits] at h
          cases hs2 : nextWorkingDayLoop c.daysOfWeek c.startHour 7
              (atHour (s1 + 1440) c.startHour) with
          | none => rw [hs2] at h; simp at h
          | some s2 =>
            rw [hs2] at h
            simp only at h
            rcases Option.map_eq_some'.mp h with ⟨out2, hout2, heq⟩
            subst heq
            simp [ih _ out2 hout2]
        · rw [if_neg hfits] at h
          simp only at h
          rcases Option.map_eq_some'.mp h with ⟨out2, hout2, heq⟩
          subst heq
          simp [ih _ out2 hout2]

theorem scheduleTasksLoop_stop (now : Int) (c : SchedulingConstraints) :
    ∀ (ts : List AISubtask) (sched : List (String × Int)) (out : List AISubtask),
      scheduleTasksLoop now c ts sched = some out →
      ∀ x ∈ out, x.assignee ≠ "" → x.estimatedMinutes ≠ 0 →
        x.scheduled.stop = x.scheduled.start + x.estimatedMinutes := by
  intro ts
  induction ts with
  | nil =>
    intro sched out h
    simp only [scheduleTasksLoop] at h
    cases h
    intro x hx; simp at hx
  | cons t rest ih =>
    intro sched out h
    simp only [scheduleTasksLoop] at h
    by_cases hskip : t.assignee = "" ∨ t.estimatedMinutes = 0
    · rw [if_pos hskip] at h
      rcases Option.map_eq_some'.mp h with ⟨out2, hout2, heq⟩
      subst heq
      intro x hx ha hm
      rcases List.mem_cons.mp hx with h1 | h1
      · subst h1
        rcases hskip with h2 | h2
        · exact absurd h2 ha
        · exact absurd h2 hm
      · exact ih _ out2 hout2 x h1 ha hm
    · rw [if_neg hskip] at h
      cases hs1 : nextWorkingDayLoop c.daysOfWeek c.startHour 7
          (cursorOr sched t.assignee (atHour (now + 1440) c.startHour)) with
      | none => rw [hs1] at h; simp at h
      | some s1 =>
        rw [hs1] at h
        simp only at h
        by_cases hfits : setHour s1 c.endHour < s1 + t.estimatedMinutes
        · rw [if_pos hfits] at h
          cases hs2 : nextWorkingDayLoop c.daysOfWeek c.startHour 7
              (atHour (s1 + 1440) c.startHour) with
          | none => rw [hs2] at h; simp at h
          | some s2 =>
            rw [hs2] at h
            simp only at h
            rcases Option.map_eq_some'.mp h with ⟨out2, hout2, heq⟩
            subst heq
            intro x hx ha hm
            rcases List.mem_cons.mp hx with h1 | h1
            · subst h1; rfl
            · exact ih _ out2 hout2 x h1 ha hm
        · rw [if_neg hfits] at h
          simp only at h
          rcases Option.map_eq_some'.mp h with ⟨out2, hout2, heq⟩
          subst heq
          intro x hx ha hm
          rcases List.mem_cons.mp hx with h1 | h1
          · subst h1; rfl
          · exact ih _ out2 hout2 x h1 ha hm

theorem scheduleTasksLoop_day (now : Int) (c : SchedulingConstraints) :
    ∀ (ts : List AISubtask) (sched : List (String × Int)) (out : List AISubtask),
      scheduleTasksLoop now c ts sched = some out →
      ∀ x ∈ out, x.assignee ≠ "" → x.estimatedMinutes ≠ 0 →
        dayOfWeekN x.scheduled.start ∈ c.daysOfWeek := by
  intro ts
  induction ts with
  | nil =>
    intro sched out h
    simp only [scheduleTasksLoop] at h
    cases h
    intro x hx; simp at hx
  | cons t rest ih =>
    intro sched out h
    simp only [scheduleTasksLoop] at h
    by_cases hskip : t.assignee = "" ∨ t.estimatedMinutes = 0
    · rw [if_pos hskip] at h
      rcases Option.map_eq_some'.mp h with ⟨out2, hout2, heq⟩
      subst heq
      intro x hx ha hm
      rcases List.mem_cons.mp hx with h1 | h1
      · subst h1
        rcases hskip with h2 | h2
        · exact absurd h2 ha
        · exact absurd h2 hm
      · exact ih _ out2 hout2 x h1 ha hm
    · rw [if_neg hskip] at h
      cases hs1 : nextWorkingDayLoop c.daysOfWeek c.startHour 7
          (cursorOr sched t.assignee (atHour (now + 1440) c.startHour)) with
      | none => rw [hs1] at h; simp at h
      | some s1 =>
        rw [hs1] at h
        simp only at h
        by_cases hfits : setHour s1 c.endHour < s1 + t.estimatedMinutes
        · rw [if_pos hfits] at h
          cases hs2 : nextWorkingDayLoop c.daysOfWeek c.startHour 7
              (atHour (s1 + 1440) c.startHour) with
          | none => rw [hs2] at h; simp at h
          | some s2 =>
            rw [hs2] at h
            simp only at h
            rcases Option.map_eq_some'.mp h with ⟨out2, hout2, heq⟩
            subst heq
            intro x hx ha hm
            rcases List.mem_cons.mp hx with h1 | h1
            · subst h1
              exact nextWorkingDayLoop_mem c.daysOfWeek c.startHour 7 _ s2 hs2
            · exact ih _ out2 hout2 x h1 ha hm
        · rw [if_neg hfits] at h
          simp only at h
          rcases Option.map_eq_some'.mp h with ⟨out2, hout2, heq⟩
          subst heq
          intro x hx ha hm
          rcases List.mem_cons.mp hx with h1 | h1
          · subst h1
            exact nextWorkingDayLoop_mem c.daysOfWeek c.startHour 7 _ s1 hs1
          · exact ih _ out2 hout2 x h1 ha hm

theorem nextWorkingDayLoop_ge2 (days : List Nat) (sh : Nat) :
    ∀ (n : Nat) (s r : Int), nextWorkingDayLoop days sh n s = some r → s ≤ r := by
  intro n
  induction n with
  | zero =>
    intro s r h
    unfold nextWorkingDayLoop at h
    by_cases hm : dayOfWeekN s ∈ days
    · rw [if_pos hm] at h; cases h; exact le_refl _
    · rw [if_neg hm] at h; simp at h
  | succ n ih =>
    intro s r h
    unfold nextWorkingDayLoop at h
    by_cases hm : dayOfWeekN s ∈ days
    · rw [if_pos hm] at h; cases h; exact le_refl _
    · rw [if_neg hm] at h
      have h1 := ih _ r h
      have h2 := le_atHour_advance s sh
      omega

/-- Hour-window invariant of the fallback scheduling fold: provided every
task's duration fits one working window, `endHour ≤ 22` (so a cursor never
crosses midnight), and every stored cursor sits at or after `startHour`,
every emitted start lies in `[startHour, endHour)`. -/
theorem scheduleTasksLoop_hour (now : Int) (c : SchedulingConstraints)
    (hlt : c.startHour < c.endHour) (hhi : c.endHour ≤ 22) :
    ∀ (ts : List AISubtask) (sched : List (String × Int)) (out : List AISubtask),
      (∀ t ∈ ts, 1 ≤ t.estimatedMinutes ∧
        t.estimatedMinutes ≤ 60 * ((c.endHour : Int) - c.startHour) ∧
        t.assignee ≠ "") →
      (∀ (m : String) (cur : Int), lookupA sched m = some cur →
        60 * (c.startHour : Int) ≤ tod cur) →
      scheduleTasksLoop now c ts sched = some out →
      ∀ x ∈ out, (c.startHour : Int) ≤ hourOf x.scheduled.start ∧
        hourOf x.scheduled.start < c.endHour := by
  have hsh : c.startHour ≤ 23 := by omega
  intro ts
  induction ts with
  | nil =>
    intro sched out hts hinv h
    simp only [scheduleTasksLoop] at h
    cases h
    intro x hx; simp at hx
  | cons t rest ih =>
    intro sched out hts hinv h
    obtain ⟨hd1, hd2, hd3⟩ := hts t (List.mem_cons_self t rest)
    have hrest : ∀ u ∈ rest, 1 ≤ u.estimatedMinutes ∧
        u.estimatedMinutes ≤ 60 * ((c.endHour : Int) - c.startHour) ∧
        u.assignee ≠ "" := fun u hu => hts u (List.mem_cons_of_mem t hu)
    simp only [scheduleTasksLoop] at h
    have hskip : ¬ (t.assignee = "" ∨ t.estimatedMinutes = 0) := by
      rintro (h1 | h1)
      · exact hd3 h1
      · omega
    rw [if_neg hskip] at h
    have hslot0 : 60 * (c.startHour : Int) ≤
        tod (cursorOr sched t.assignee (atHour (now + 1440) c.startHour)) := by
      unfold cursorOr
      cases hl : lookupA sched t.assignee with
      | none => rw [tod_atHour _ hsh]
      | some cur => exact hinv _ cur hl
    cases hs1 : nextWorkingDayLoop c.daysOfWeek c.startHour 7
        (cursorOr sched t.assignee (atHour (now + 1440) c.startHour)) with
    | none => rw [hs1] at h; simp at h
    | some s1 =>
      rw [hs1] at h
      simp only at h
      have hts1 : 60 * (c.startHour : Int) ≤ tod s1 := by
        rcases (nextWorkingDayLoop_ge c.daysOfWeek hsh 7 _ s1 hs1).2 with h2 | h2
        · rw [h2]; exact hslot0
        · omega
      by_cases hfits : setHour s1 c.endHour < s1 + t.estimatedMinutes
      · rw [if_pos hfits] at h
        cases hs2 : nextWorkingDayLoop c.daysOfWeek c.startHour 7
            (atHour (s1 + 1440) c.startHour) with
        | none => rw [hs2] at h; simp at h
        | some s2 =>
          rw [hs2] at h
          simp only at h
          rcases Option.map_eq_some'.mp h with ⟨out2, hout2, heq⟩
          subst heq
          have hts2 : tod s2 = 60 * (c.startHour : Int) := by
            rcases (nextWorkingDayLoop_ge c.daysOfWeek hsh 7 _ s2 hs2).2 with h2 | h2
            · rw [h2, tod_atHour _ hsh]
            · exact h2
          have hinv2 : ∀ (m : String) (cur : Int),
              lookupA (upsert sched t.assignee (s2 + t.estimatedMinutes + 15)) m
                = some cur → 60 * (c.startHour : Int) ≤ tod cur := by
            intro m cur hl
            by_cases hm : t.assignee = m
            · rw [← hm, lookupA_upsert_self] at hl
              cases hl
              unfold tod at *
              omega
            · rw [lookupA_upsert_ne sched t.assignee m _ hm] at hl
              exact hinv m cur hl
          intro x hx
          rcases List.mem_cons.mp hx with h1 | h1
          · subst h1
            refine ⟨?_, ?_⟩
            · show (c.startHour : Int) ≤ hourOf s2
              rw [hourOf_eq_div, hts2]; omega
            · show hourOf s2 < (c.endHour : Int)
              rw [hourOf_eq_div, hts2]; omega
          · exact ih _ out2 hrest hinv2 hout2 x h1
      · rw [if_neg hfits] at h
        simp only at h
        rcases Option.map_eq_some'.mp h with ⟨out2, hout2, heq⟩
        subst heq
        have hfit2 : s1 + t.estimatedMinutes ≤ setHour s1 c.endHour := by omega
        have hinv2 : ∀ (m : String) (cur : Int),
            lookupA (upsert sched t.assignee (s1 + t.estimatedMinutes + 15)) m
              = some cur → 60 * (c.startHour : Int) ≤ tod cur := by
          intro m cur hl
          by_cases hm : t.assignee = m
          · rw [← hm, lookupA_upsert_self] at hl
            cases hl
            unfold setHour dayStart at hfit2
            unfold tod at *
            omega
          · rw [lookupA_upsert_ne sched t.assignee m _ hm] at hl
            exact hinv m cur hl
        intro x hx
        rcases List.mem_cons.mp hx with h1 | h1
        · subst h1
          have : (c.startHour : Int) ≤ hourOf s1 ∧ hourOf s1 < c.endHour := by
            unfold setHour dayStart at hfit2
            unfold tod at hts1
            unfold hourOf
            omega
          exact this
        · exact ih _ out2 hrest hinv2 hout2 x h1

/-- Per-member separation invariant of the fallback scheduling fold. -/
theorem scheduleTasksLoop_sep (now : Int) (c : SchedulingConstraints) :
    ∀ (ts : List AISubtask) (sched : List (String × Int)) (out : List AISubtask),
      (∀ t ∈ ts, 1 ≤ t.estimatedMinutes ∧ t.assignee ≠ "") →
      scheduleTasksLoop now c ts sched = some out → ∀ m : String,
      ((out.filter (fun u => u.assignee == m)).Pairwise sep15) ∧
      (∀ cur, lookupA sched m = some cur →
        ∀ x ∈ out.filter (fun u => u.assignee == m), cur ≤ x.scheduled.start) := by
  intro ts
  induction ts with
  | nil =>
    intro sched out hts h m
    simp only [scheduleTasksLoop] at h
    cases h
    refine ⟨by simp, ?_⟩
    intro cur hcur x hx; simp at hx
  | cons t rest ih =>
    intro sched out hts h m
    obtain ⟨hd1, hd3⟩ := hts t (List.mem_cons_self t rest)
    have hrest : ∀ u ∈ rest, 1 ≤ u.estimatedMinutes ∧ u.assignee ≠ "" :=
      fun u hu => hts u (List.mem_cons_of_mem t hu)
    simp only [scheduleTasksLoop] at h
    have hskip : ¬ (t.assignee = "" ∨ t.estimatedMinutes = 0) := by
      rintro (h1 | h1)
      · exact hd3 h1
      · omega
    rw [if_neg hskip] at h
    set slot0 := cursorOr sched t.assignee (atHour (now + 1440) c.startHour)
      with hslot0
    cases hs1 : nextWorkingDayLoop c.daysOfWeek c.startHour 7 slot0 with
    | none => rw [hs1] at h; simp at h
    | some s1 =>
      rw [hs1] at h
      simp only at h
      have hges1 : slot0 ≤ s1 := nextWorkingDayLoop_ge2 c.daysOfWeek c.startHour 7 _ s1 hs1
      -- obtain the chosen start s2 and the remaining output uniformly
      have hstep : ∃ s2 out2, slot0 ≤ s2 ∧
          scheduleTasksLoop now c rest
            (upsert sched t.assignee (s2 + t.estimatedMinutes + 15)) = some out2 ∧
          out = ({ t with scheduled :=
            ⟨s2, s2 + t.estimatedMinutes⟩ } : AISubtask) :: out2 := by
        by_cases hfits : setHour s1 c.endHour < s1 + t.estimatedMinutes
        · rw [if_pos hfits] at h
          cases hs2 : nextWorkingDayLoop c.daysOfWeek c.startHour 7
              (atHour (s1 + 1440) c.startHour) with
          | none => rw [hs2] at h; simp at h
          | some s2 =>
            rw [hs2] at h
            simp only at h
            rcases Option.map_eq_some'.mp h with ⟨out2, hout2, heq⟩
            have hge2 : atHour (s1 + 1440) c.startHour ≤ s2 :=
              nextWorkingDayLoop_ge2 c.daysOfWeek c.startHour 7 _ s2 hs2
            have hadv := le_atHour_advance s1 c.startHour
            exact ⟨s2, out2, by omega, hout2, heq.symm⟩
        · rw [if_neg hfits] at h
          simp only at h
          rcases Option.map_eq_some'.mp h with ⟨out2, hout2, heq⟩
          exact ⟨s1, out2, hges1, hout2, heq.symm⟩
      obtain ⟨s2, out2, hge, hout2, heq⟩ := hstep
      subst heq
      obtain ⟨ihP, ihC⟩ := ih _ out2 hrest hout2 m
      by_cases hm : t.assignee = m
      · have hfil :
            (({ t with scheduled := ⟨s2, s2 + t.estimatedMinutes⟩ } : AISubtask) ::
                out2).filter (fun u => u.assignee == m) =
            ({ t with scheduled := ⟨s2, s2 + t.estimatedMinutes⟩ } : AISubtask) ::
              out2.filter (fun u => u.assignee == m) := by
          rw [List.filter_cons_of_pos]
          simp [hm]
        rw [hfil]
        have hcur2 : lookupA (upsert sched t.assignee
            (s2 + t.estimatedMinutes + 15)) m = some (s2 + t.estimatedMinutes + 15) := by
          rw [← hm]
          exact lookupA_upsert_self sched t.assignee _
        have hafter : ∀ x ∈ out2.filter (fun u => u.assignee == m),
            s2 + t.estimatedMinutes + 15 ≤ x.scheduled.start :=
          fun x hx => ihC _ hcur2 x hx
        constructor
        · rw [List.pairwise_cons]
          exact ⟨fun x hx => by
            have := hafter x hx
            unfold sep15
            simpa using this, ihP⟩
        · intro cur hcur x hx
          have hslotcur : slot0 = cur := by
            rw [hslot0]; unfold cursorOr; rw [hm, hcur]
          rcases List.mem_cons.mp hx with h1 | h1
          · subst h1; simpa [← hslotcur] using hge
          · have := hafter x h1; omega
      · have hfil :
            (({ t with scheduled := ⟨s2, s2 + t.estimatedMinutes⟩ } : AISubtask) ::
                out2).filter (fun u => u.assignee == m) =
            out2.filter (fun u => u.assignee == m) := by
          rw [List.filter_cons_of_neg]
          simp [hm]
        rw [hfil]
        have hlook : lookupA (upsert sched t.assignee
            (s2 + t.estimatedMinutes + 15)) m = lookupA sched m :=
          lookupA_upsert_ne sched t.assignee m _ hm
        exact ⟨ihP, fun cur hcur x hx => ihC cur (hlook ▸ hcur) x hx⟩

/-! ## Availability and feasibility monotonicity -/

theorem availLoop_nonneg (days : List Nat) {hpd : Int} (hh : 0 ≤ hpd)
    (due : Int) : ∀ (n : Nat) (cur : Int), 0 ≤ availLoop days hpd due n cur := by
  intro n
  induction n with
  | zero => intro cur; exact le_refl _
  | succ n ih =>
    intro cur
    unfold availLoop
    by_cases hc : cur < due
    · rw [if_pos hc]
      have := ih (cur + 1440)
      by_cases hm : dayOfWeekN cur ∈ days
      · rw [if_pos hm]; omega
      · rw [if_neg hm]; omega
    · rw [if_neg hc]

theorem availLoop_mono_due (days : List Nat) {hpd : Int} (hh : 0 ≤ hpd)
    {due1 due2 : Int} (hdue : due1 ≤ due2) :
    ∀ (n : Nat) (cur : Int),
      availLoop days hpd due1 n cur ≤ availLoop days hpd due2 n cur := by
  intro n
  induction n with
  | zero => intro cur; exact le_refl _
  | succ n ih =>
    intro cur
    unfold availLoop
    by_cases h1 : cur < due1
    · rw [if_pos h1, if_pos (by omega : cur < due2)]
      have := ih (cur + 1440)
      by_cases hm : dayOfWeekN cur ∈ days
      · rw [if_pos hm]; omega
      · rw [if_neg hm]; omega
    · rw [if_neg h1]
      by_cases h2 : cur < due2
      · rw [if_pos h2]
        have h3 := availLoop_nonneg days hh due2 n (cur + 1440)
        by_cases hm : dayOfWeekN cur ∈ days
        · rw [if_pos hm]; omega
        · rw [if_neg hm]; omega
      · rw [if_neg h2]

theorem availLoop_mono_fuel (days : List Nat) {hpd : Int} (hh : 0 ≤ hpd)
    (due : Int) : ∀ (n m : Nat), n ≤ m → ∀ cur : Int,
      availLoop days hpd due n cur ≤ availLoop days hpd due m cur := by
  intro n
  induction n with
  | zero =>
    intro m hm cur
    exact availLoop_nonneg days hh due m cur
  | succ n ih =>
    intro m hm cur
    obtain ⟨m2, rfl⟩ : ∃ m2, m = m2 + 1 := ⟨m - 1, by omega⟩
    unfold availLoop
    by_cases hc : cur < due
    · rw [if_pos hc, if_pos hc]
      have := ih m2 (by omega) (cur + 1440)
      by_cases hdm : dayOfWeekN cur ∈ days
      · rw [if_pos hdm]; omega
      · rw [if_neg hdm]; omega
    · rw [if_neg hc, if_neg hc]

theorem availLoop_of_due_le (days : List Nat) (hpd due : Int) :
    ∀ (n : Nat) (cur : Int), due ≤ cur → availLoop days hpd due n cur = 0 := by
  intro n cur h
  cases n with
  | zero => rfl
  | succ n => unfold availLoop; rw [if_neg (by omega)]

/-- Fuel irrelevance past the iteration count: the wrapper's fuel choice in
`calculateAvailableHours` computes the source loop's exact value. -/
theorem availLoop_stable (days : List Nat) (hpd due : Int) :
    ∀ (n m : Nat) (cur : Int), (due - cur).toNat ≤ 1440 * n →
      (due - cur).toNat ≤ 1440 * m →
      availLoop days hpd due n cur = availLoop days hpd due m cur := by
  intro n
  induction n with
  | zero =>
    intro m cur h1 h2
    rw [availLoop_of_due_le days hpd due 0 cur (by omega),
      availLoop_of_due_le days hpd due m cur (by omega)]
  | succ n ih =>
    intro m cur h1 h2
    cases m with
    | zero =>
      rw [availLoop_of_due_le days hpd due _ cur (by omega),
        availLoop_of_due_le days hpd due 0 cur (by omega)]
    | succ m2 =>
      unfold availLoop
      by_cases hc : cur < due
      · simp only [if_pos hc]
        rw [ih m2 (cur + 1440) (by omega) (by omega)]
      · simp only [if_neg hc]

theorem calculateAvailableHours_mono (now : Int) (c : SchedulingConstraints)
    (hle : c.startHour ≤ c.endHour) {due1 due2 : Int} (hdue : due1 ≤ due2) :
    calculateAvailableHours now due1 c ≤ calculateAvailableHours now due2 c := by
  unfold calculateAvailableHours
  have hh : (0 : Int) ≤ (c.endHour : Int) - c.startHour := by
    have : (c.startHour : Int) ≤ c.endHour := by exact_mod_cast hle
    omega
  calc availLoop c.daysOfWeek ((c.endHour : Int) - c.startHour) due1
        ((due1 - atHour (now + 1440) c.startHour).toNat + 2)
        (atHour (now + 1440) c.startHour)
      ≤ availLoop c.daysOfWeek ((c.endHour : Int) - c.startHour) due1
        ((due2 - atHour (now + 1440) c.startHour).toNat + 2)
        (atHour (now + 1440) c.startHour) := by
        apply availLoop_mono_fuel c.daysOfWeek hh due1
        omega
    _ ≤ availLoop c.daysOfWeek ((c.endHour : Int) - c.startHour) due2
        ((due2 - atHour (now + 1440) c.startHour).toNat + 2)
        (atHour (now + 1440) c.startHour) :=
        availLoop_mono_due c.daysOfWeek hh hdue _ _

theorem calculateAvailableHours_nonneg (now due : Int)
    (c : SchedulingConstraints) (hle : c.startHour ≤ c.endHour) :
    0 ≤ calculateAvailableHours now due c := by
  unfold calculateAvailableHours
  have hh : (0 : Int) ≤ (c.endHour : Int) - c.startHour := by
    have : (c.startHour : Int) ≤ c.endHour := by exact_mod_cast hle
    omega
  exact availLoop_nonneg c.daysOfWeek hh due _ _

/-! ## The balancer the spec describes, for comparison with the source -/

/-- Modelled from the spec's words (§4.5): walk the subtasks in order and
reassign each one to the *currently least-loaded* name (the head of the
ascending re-sorted member list), updating that name's total before the next
subtask.  The source instead picks `sortedMembers[memberIndex % n]`. -/
def balanceLoopSpec : List AISubtask → List String → List (String × Int) →
    List AISubtask
  | [], _, _ => []
  | t :: rest, sorted, w =>
    let assigned := sorted.getD 0 ""
    let w2 := addWork w assigned t.estimatedMinutes
    { t with assignee := assigned } ::
      balanceLoopSpec rest (sortBy (workLe w2) sorted) w2

/-- Modelled from the spec's words: `balanceWorkload` as §4.5 describes it. -/
def balanceWorkloadSpec (subtasks : List AISubtask) : List AISubtask :=
  let w := buildWorkload subtasks
  let sorted := sortBy (workLe w) (w.map Prod.fst)
  balanceLoopSpec subtasks sorted w

/-- Total minutes the list assigns to `name`. -/
def totalsFor (ts : List AISubtask) (name : String) : Int :=
  ((ts.filter (fun t => t.assignee == name)).map (·.estimatedMinutes)).sum

/-! ## Idempotence of the repair step -/

theorem truthyInt_idem (o : Option Int) (d : Int) :
    truthyInt (some (truthyInt o d)) d = truthyInt o d := by
  cases o with
  | none =>
    unfold truthyInt
    by_cases h : d = 0 <;> simp [h]
  | some v =>
    unfold truthyInt
    by_cases h : v = 0 <;> by_cases h2 : d = 0 <;> simp [h, h2]

theorem truthyStr_idem (o : Option String) (d : String) :
    truthyStr (some (truthyStr o d)) d = truthyStr o d := by
  cases o with
  | none =>
    unfold truthyStr
    by_cases h : d = "" <;> simp [h]
  | some v =>
    unfold truthyStr
    by_cases h : v = "" <;> by_cases h2 : d = "" <;> simp [h, h2]

theorem repairOne_idem (now : Int) (len : Nat) (names : List String)
    (parts : Int) (sh : Nat) (i : Nat) (r : RawSubtask) :
    repairOne now len names parts sh i
      (toRaw (repairOne now len names parts sh i r)) =
    repairOne now len names parts sh i r := by
  unfold repairOne toRaw validateDateTime
  simp only [AISubtask.mk.injEq, Option.bind_some, Option.getD_some]
  refine ⟨truthyInt_idem _ _, truthyStr_idem _ _, truthyStr_idem _ _, ?_, ?_, rfl⟩
  · cases r.assignee with
    | none =>
      simp only
      by_cases h : names.getD (i % names.length) "" ∈ names <;> simp [h]
    | some a =>
      simp only
      by_cases h : a ∈ names
      · simp [h]
      · rw [if_neg h]
        by_cases h2 : names.getD (i % names.length) "" ∈ names <;> simp [h2]
  · cases r.estimatedMinutes with
    | none => simp
    | some m =>
      simp only
      by_cases h : 0 < m
      · simp [h]
      · rw [if_neg h]
        norm_num

theorem mapIdxFrom_length (f : Nat → α → β) :
    ∀ (i : Nat) (l : List α), (mapIdxFrom f i l).length = l.length := by
  intro i l
  induction l generalizing i with
  | nil => rfl
  | cons x xs ih => simp [mapIdxFrom, ih]

theorem mapIdxFrom_mem (f : Nat → α → β) :
    ∀ (l : List α) (i : Nat) (x : β), x ∈ mapIdxFrom f i l →
      ∃ j a, a ∈ l ∧ x = f j a := by
  intro l
  induction l with
  | nil => intro i x hx; simp [mapIdxFrom] at hx
  | cons y ys ih =>
    intro i x hx
    simp only [mapIdxFrom] at hx
    rcases List.mem_cons.mp hx with h | h
    · exact ⟨i, y, List.mem_cons_self y ys, h⟩
    · obtain ⟨j, a, ha, hfa⟩ := ih (i + 1) x h
      exact ⟨j, a, List.mem_cons_of_mem y ha, hfa⟩

theorem repair_twice (now : Int) (names : List String) (parts : Int)
    (sh : Nat) (raw : List RawSubtask) :
    validateAndRepairPlan now
        ((validateAndRepairPlan now raw names parts sh).map toRaw)
        names parts sh =
      validateAndRepairPlan now raw names parts sh := by
  unfold validateAndRepairPlan
  rw [List.length_map, mapIdxFrom_length]
  have aux : ∀ (l : List RawSubtask) (i : Nat),
      mapIdxFrom (repairOne now raw.length names parts sh) i
          ((mapIdxFrom (repairOne now raw.length names parts sh) i l).map toRaw) =
        mapIdxFrom (repairOne now raw.length names parts sh) i l := by
    intro l
    induction l with
    | nil => intro i; rfl
    | cons x xs ih =>
      intro i
      simp only [mapIdxFrom, List.map_cons]
      rw [repairOne_idem now raw.length names parts sh i x, ih (i + 1)]
  exact aux raw 0

/-! ## Heap-level facts about `balanceWorkload` -/

/-- All fields except `assignee` agree. -/
def sameButAssignee (a b : AISubtask) : Prop :=
  a.part = b.part ∧ a.title = b.title ∧ a.details = b.details ∧
    a.estimatedMinutes = b.estimatedMinutes ∧ a.scheduled = b.scheduled

theorem sameButAssignee_refl (a : AISubtask) : sameButAssignee a a :=
  ⟨rfl, rfl, rfl, rfl, rfl⟩

theorem sameButAssignee_trans {a b c : AISubtask} (h1 : sameButAssignee a b)
    (h2 : sameButAssignee b c) : sameButAssignee a c := by
  obtain ⟨p1, t1, d1, e1, s1⟩ := h1
  obtain ⟨p2, t2, d2, e2, s2⟩ := h2
  exact ⟨p1.trans p2, t1.trans t2, d1.trans d2, e1.trans e2, s1.trans s2⟩

theorem storeBalanceLoop_frame :
    ∀ (ptrs : List Nat) (sorted : List String) (w : List (String × Int))
      (idx : Nat) (store : Nat → AISubtask) (q : Nat),
      sameButAssignee (storeBalanceLoop ptrs sorted w idx store q) (store q) ∧
      (q ∉ ptrs → storeBalanceLoop ptrs sorted w idx store q = store q) := by
  intro ptrs
  induction ptrs with
  | nil =>
    intro sorted w idx store q
    exact ⟨sameButAssignee_refl _, fun _ => rfl⟩
  | cons p rest ih =>
    intro sorted w idx store q
    simp only [storeBalanceLoop]
    set store2 : Nat → AISubtask := fun q2 =>
      if q2 = p then
        { store p with assignee := sorted.getD (idx % sorted.length) "" }
      else store q2 with hstore2
    obtain ⟨ih1, ih2⟩ := ih (sortBy (workLe
        (addWork w (sorted.getD (idx % sorted.length) "")
          (store p).estimatedMinutes)) sorted)
      (addWork w (sorted.getD (idx % sorted.length) "")
        (store p).estimatedMinutes) (idx + 1) store2 q
    have hsame2 : sameButAssignee (store2 q) (store q) := by
      rw [hstore2]
      by_cases hq : q = p
      · subst hq; simp only [if_pos rfl]
        exact ⟨rfl, rfl, rfl, rfl, rfl⟩
      · simp only [if_neg hq]; exact sameButAssignee_refl _
    refine ⟨sameButAssignee_trans ih1 hsame2, ?_⟩
    intro hq
    have hqp : q ≠ p := fun h => hq (h ▸ List.mem_cons_self p rest)
    have hqr : q ∉ rest := fun h => hq (List.mem_cons_of_mem p h)
    rw [ih2 hqr, hstore2]
    simp [hqp]

/-! ## Well-formedness of the fallback decomposition -/

theorem generatePartTasks_minutes (pn : Int) (tpp : Nat) (title : String) :
    ∀ t ∈ generatePartTasks pn tpp title,
      1 ≤ t.estimatedMinutes ∨ t.estimatedMinutes = 0 := by
  intro t ht
  unfold generatePartTasks at ht
  rcases List.mem_map.mp ht with ⟨i, _, hform⟩
  subst hform
  simp only
  have hlen : i % taskTemplates.length < taskTemplates.length :=
    Nat.mod_lt _ (by decide)
  have hmem : taskTemplates.getD (i % taskTemplates.length) ("", "", 0)
      ∈ taskTemplates := by
    rw [List.getD_eq_getElem taskTemplates ("", "", 0) hlen]
    exact List.getElem_mem hlen
  have hall : ∀ x ∈ taskTemplates, 1 ≤ x.2.2 := by decide
  exact Or.inl (hall _ hmem)

theorem completePartTask_minutes (now : Int) (pn : Int)
    (members : List PlanMember) (t : PartialSubtask)
    (h : 1 ≤ t.estimatedMinutes ∨ t.estimatedMinutes = 0) :
    1 ≤ (completePartTask now pn members t).estimatedMinutes := by
  unfold completePartTask
  simp only
  rcases h with h | h
  · rw [if_neg (by omega)]; exact h
  · rw [if_pos h]; omega

theorem matchingMember_mem (taskText : String) :
    ∀ (members : List PlanMember) (mem : PlanMember),
      matchingMember taskText members = some mem → mem ∈ members := by
  intro members
  induction members with
  | nil => intro mem h; simp [matchingMember] at h
  | cons m rest ih =>
    intro mem h
    unfold matchingMember at h
    cases hrole : m.role with
    | none =>
      rw [hrole] at h
      exact List.mem_cons_of_mem m (ih mem h)
    | some r =>
      rw [hrole] at h
      simp only at h
      cases hp : lookupPrefs rolePreferences r with
      | none =>
        rw [hp] at h
        simp only at h
        exact List.mem_cons_of_mem m (ih mem h)
      | some prefs =>
        rw [hp] at h
        simp only at h
        by_cases hany : prefs.any fun p => containsStr taskText p.toLower
        · rw [if_pos hany] at h; cases h; exact List.mem_cons_self m rest
        · rw [if_neg hany] at h
          exact List.mem_cons_of_mem m (ih mem h)

theorem assignMembersToTasks_assignee (subtasks : List AISubtask)
    (members : List PlanMember) (hne : members ≠ []) :
    ∀ x ∈ assignMembersToTasks subtasks members,
      (∃ mem ∈ members, x.assignee = mem.name) ∧
      ∃ t0 ∈ subtasks, x.estimatedMinutes = t0.estimatedMinutes := by
  intro x hx
  unfold assignMembersToTasks at hx
  obtain ⟨j, a, ha, hform⟩ := mapIdxFrom_mem _ subtasks 0 x hx
  subst hform
  have hlen : 0 < members.length := List.length_pos.mpr hne
  have hdef : members.getD (j % members.length) ⟨"", none⟩ ∈ members := by
    have hj : j % members.length < members.length := Nat.mod_lt _ hlen
    rw [List.getD_eq_getElem members ⟨"", none⟩ hj]
    exact List.getElem_mem hj
  refine ⟨?_, a, ha, rfl⟩
  simp only
  by_cases hc : a.title ≠ "" ∧ a.details ≠ ""
  · rw [if_pos hc]
    cases hm : matchingMember ((a.title ++ " " ++ a.details).toLower) members with
    | none => exact ⟨_, hdef, rfl⟩
    | some mem => exact ⟨mem, matchingMember_mem _ members mem hm, rfl⟩
  · rw [if_neg hc]
    exact ⟨_, hdef, rfl⟩

theorem mem_insertBy (le : α → α → Bool) (a x : α) :
    ∀ l : List α, x ∈ insertBy le a l → x = a ∨ x ∈ l := by
  intro l
  induction l with
  | nil => intro h; simp [insertBy] at h; exact Or.inl h
  | cons y ys ih =>
    intro h
    unfold insertBy at h
    by_cases hle : le a y
    · rw [if_pos hle] at h
      rcases List.mem_cons.mp h with h | h
      · exact Or.inl h
      · exact Or.inr h
    · rw [if_neg hle] at h
      rcases List.mem_cons.mp h with h | h
      · exact Or.inr (h ▸ List.mem_cons_self y ys)
      · rcases ih h with h | h
        · exact Or.inl h
        · exact Or.inr (List.mem_cons_of_mem y h)

theorem mem_sortBy (le : α → α → Bool) (x : α) :
    ∀ l : List α, x ∈ sortBy le l → x ∈ l := by
  intro l
  induction l with
  | nil => intro h; simp [sortBy] at h
  | cons y ys ih =>
    intro h
    unfold sortBy at h
    rcases mem_insertBy le y x _ h with h | h
    · exact h ▸ List.mem_cons_self y ys
    · exact List.mem_cons_of_mem y (ih h)

/-- Scheduling only rewrites `scheduled`: every output task's identity
fields come from some input task. -/
theorem scheduleTasksLoop_fields (now : Int) (c : SchedulingConstraints) :
    ∀ (ts : List AISubtask) (sched : List (String × Int)) (out : List AISubtask),
      scheduleTasksLoop now c ts sched = some out →
      ∀ x ∈ out, ∃ tin ∈ ts, x.assignee = tin.assignee ∧
        x.estimatedMinutes = tin.estimatedMinutes := by
  intro ts
  induction ts with
  | nil =>
    intro sched out h
    simp only [scheduleTasksLoop] at h
    cases h
    intro x hx; simp at hx
  | cons t rest ih =>
    intro sched out h
    simp only [scheduleTasksLoop] at h
    by_cases hskip : t.assignee = "" ∨ t.estimatedMinutes = 0
    · rw [if_pos hskip] at h
      rcases Option.map_eq_some'.mp h with ⟨out2, hout2, heq⟩
      subst heq
      intro x hx
      rcases List.mem_cons.mp hx with h1 | h1
      · exact ⟨t, List.mem_cons_self t rest, h1 ▸ rfl, h1 ▸ rfl⟩
      · obtain ⟨tin, htin, he⟩ := ih _ out2 hout2 x h1
        exact ⟨tin, List.mem_cons_of_mem t htin, he⟩
    · rw [if_neg hskip] at h
      cases hs1 : nextWorkingDayLoop c.daysOfWeek c.startHour 7
          (cursorOr sched t.assignee (atHour (now + 1440) c.startHour)) with
      | none => rw [hs1] at h; simp at h
      | some s1 =>
        rw [hs1] at h
        simp only at h
        by_cases hfits : setHour s1 c.endHour < s1 + t.estimatedMinutes
        · rw [if_pos hfits] at h
          cases hs2 : nextWorkingDayLoop c.daysOfWeek c.startHour 7
              (atHour (s1 + 1440) c.startHour) with
          | none => rw [hs2] at h; simp at h
          | some s2 =>
            rw [hs2] at h
            simp only at h
            rcases Option.map_eq_some'.mp h with ⟨out2, hout2, heq⟩
            subst heq
            intro x hx
            rcases List.mem_cons.mp hx with h1 | h1
            · exact ⟨t, List.mem_cons_self t rest, h1 ▸ rfl, h1 ▸ rfl⟩
            · obtain ⟨tin, htin, he⟩ := ih _ out2 hout2 x h1
              exact ⟨tin, List.mem_cons_of_mem t htin, he⟩
        · rw [if_neg hfits] at h
          simp only at h
          rcases Option.map_eq_some'.mp h with ⟨out2, hout2, heq⟩
          subst heq
          intro x hx
          rcases List.mem_cons.mp hx with h1 | h1
          · exact ⟨t, List.mem_cons_self t rest, h1 ▸ rfl, h1 ▸ rfl⟩
          · obtain ⟨tin, htin, he⟩ := ih _ out2 hout2 x h1
            exact ⟨tin, List.mem_cons_of_mem t htin, he⟩

/-! ## Concrete fixtures used by counterexamples and witnesses -/

/-- The constraint set of the spec's scenario (§8). -/
def c817 : SchedulingConstraints := ⟨8, 9, 17, [1, 2, 3, 4, 5]⟩

/-- A well-formed one-hour task assigned to `"A"`. -/
def tsk1 : AISubtask := ⟨1, "t", "d", "A", 60, ⟨0, 0⟩⟩

/-- Placeholder used as a `getD` default when extracting list elements. -/
def dummyTask : AISubtask := ⟨0, "", "", "", 0, ⟨0, 0⟩⟩

/-- Decidable well-formedness of a candidate record (claim C7's premise). -/
def rawWellFormed (names : List String) (r : RawSubtask) : Bool :=
  r.part.isSome && r.title.isSome && r.details.isSome &&
    (match r.assignee with
      | some a => decide (a ∈ names)
      | none => false) &&
    (match r.estimatedMinutes with
      | some m => decide (0 < m)
      | none => false) &&
    (match r.scheduled with
      | some st => st.start.isSome && st.stop.isSome
      | none => false)

/-! ## Claim C1 -/

/-- C1, counterexample: with the valid constraint set
`{startHour 9, endHour 17, daysOfWeek [2]}`, `now` a Tuesday midnight and
`dueDate` in the past, `Scheduler.rescheduleTasks` places the task on a
Wednesday (`day 3 ∉ [2]`), because the working-day loop of
`findNextWorkingSlot` is cut short by its `slot.isBefore(dueDate)` guard.
The claim's day-of-week invariant is therefore false as stated. -/
theorem c1_counterexample :
    (9 : Nat) < 17 ∧ daysValid [2] ∧
    (rescheduleTasks 2880 [tsk1] 0 ⟨8, 9, 17, [2]⟩).map
        (fun t => dayOfWeekN t.scheduled.start) = [3] ∧
    (3 : Nat) ∉ [2] := by decide

/-- C1, amended.  (a) `rescheduleTasks`: every scheduled start's hour lies
in `[startHour, endHour)` (for valid `startHour < endHour ≤ 23`), and the
day-of-week membership holds for every start that is still before the due
date.  (b) the fallback `scheduleTasks`: every task it actually schedules
starts on a listed day; and its hour bound additionally needs every
duration to fit one working window and `endHour ≤ 22` (otherwise a task
may spill past midnight and the next one start before `startHour`, which
the source does not re-check). -/
theorem c1_amended :
    (∀ (now : Int) (ts : List AISubtask) (due : Int) (c : SchedulingConstraints),
      c.startHour < c.endHour → c.endHour ≤ 23 →
      ∀ x ∈ rescheduleTasks now ts due c,
        ((c.startHour : Int) ≤ hourOf x.scheduled.start ∧
          hourOf x.scheduled.start < c.endHour) ∧
        (x.scheduled.start < due → dayOfWeekN x.scheduled.start ∈ c.daysOfWeek)) ∧
    (∀ (now : Int) (ts : List AISubtask) (due : Int) (c : SchedulingConstraints)
      (out : List AISubtask), scheduleTasks now ts due c = some out →
      ∀ x ∈ out, x.assignee ≠ "" → x.estimatedMinutes ≠ 0 →
        dayOfWeekN x.scheduled.start ∈ c.daysOfWeek) ∧
    (∀ (now : Int) (ts : List AISubtask) (due : Int) (c : SchedulingConstraints)
      (out : List AISubtask), c.startHour < c.endHour → c.endHour ≤ 22 →
      (∀ t ∈ ts, 1 ≤ t.estimatedMinutes ∧
        t.estimatedMinutes ≤ 60 * ((c.endHour : Int) - c.startHour) ∧
        t.assignee ≠ "") →
      scheduleTasks now ts due c = some out →
      ∀ x ∈ out, (c.startHour : Int) ≤ hourOf x.scheduled.start ∧
        hourOf x.scheduled.start < c.endHour) := by
  refine ⟨?_, ?_, ?_⟩
  · intro now ts due c hlt hhi x hx
    unfold rescheduleTasks at hx
    obtain ⟨s0, hstart, _⟩ := rescheduleLoop_mem now due c _ _ x hx
    constructor
    · rw [hstart]; exact findNextWorkingSlot_hour s0 due c hlt hhi
    · intro hdue
      rcases findNextWorkingSlot_exit s0 due c with h | h
      · rw [hstart]; exact h
      · exfalso; rw [hstart] at hdue; exact h hdue
  · intro now ts due c out h x hx ha hm
    unfold scheduleTasks at h
    exact scheduleTasksLoop_day now c ts [] out h x hx ha hm
  · intro now ts due c out hlt hhi hts h x hx
    unfold scheduleTasks at h
    exact scheduleTasksLoop_hour now c hlt hhi ts [] out hts
      (fun m cur hl => by simp [lookupA] at hl) h x hx

/-- C1, witness for the amended theorem at concrete inputs. -/
theorem c1_amended_witness :
    ((c817.startHour : Int) ≤ hourOf
        ((rescheduleTasks 0 [tsk1] 1000000 c817).getD 0 dummyTask).scheduled.start ∧
      dayOfWeekN (((scheduleTasks 0 [tsk1] 1000000 c817).getD []).getD 0
          dummyTask).scheduled.start ∈ c817.daysOfWeek ∧
      hourOf (((scheduleTasks 0 [tsk1] 1000000 c817).getD []).getD 0
          dummyTask).scheduled.start < c817.endHour) := by
  have h1 := (c1_amended.1) 0 [tsk1] 1000000 c817 (by decide) (by decide)
    ((rescheduleTasks 0 [tsk1] 1000000 c817).getD 0 dummyTask) (by decide)
  have h2 := (c1_amended.2.1) 0 [tsk1] 1000000 c817
    ((scheduleTasks 0 [tsk1] 1000000 c817).getD []) (by decide)
    (((scheduleTasks 0 [tsk1] 1000000 c817).getD []).getD 0 dummyTask)
    (by decide) (by decide) (by decide)
  have h3 := (c1_amended.2.2) 0 [tsk1] 1000000 c817
    ((scheduleTasks 0 [tsk1] 1000000 c817).getD []) (by decide) (by decide)
    (by decide) (by decide)
    (((scheduleTasks 0 [tsk1] 1000000 c817).getD []).getD 0 dummyTask)
    (by decide)
  exact ⟨h1.1.1, h2, h3.2⟩

/-! ## Claim C2 -/

/-- C2: in one scheduling pass (`rescheduleTasks`, and the fallback
`scheduleTasks` whenever it completes), the intervals assigned to any one
member are pairwise ordered with `end + 15 ≤ next start` — no overlap and at
least a 15-minute buffer — given the data model's `estimatedMinutes ≥ 1`
(and, for the fallback, non-empty assignee names so no task is skipped). -/
theorem c2_theorem :
    (∀ (now : Int) (ts : List AISubtask) (due : Int) (c : SchedulingConstraints)
      (m : String), (∀ t ∈ ts, 1 ≤ t.estimatedMinutes) →
      ((rescheduleTasks now ts due c).filter
        (fun u => u.assignee == m)).Pairwise sep15) ∧
    (∀ (now : Int) (ts : List AISubtask) (due : Int) (c : SchedulingConstraints)
      (out : List AISubtask) (m : String),
      (∀ t ∈ ts, 1 ≤ t.estimatedMinutes ∧ t.assignee ≠ "") →
      scheduleTasks now ts due c = some out →
      (out.filter (fun u => u.assignee == m)).Pairwise sep15) := by
  constructor
  · intro now ts due c m hts
    unfold rescheduleTasks
    exact (rescheduleLoop_sep now due c (sortBy taskLe ts) []
      (fun t ht => hts t (mem_sortBy taskLe t ts ht)) m).1
  · intro now ts due c out m hts h
    unfold scheduleTasks at h
    exact (scheduleTasksLoop_sep now c ts [] out hts h m).1

/-- C2, witness at concrete inputs. -/
theorem c2_witness :
    ((rescheduleTasks 0 [tsk1, tsk1] 1000000 c817).filter
      (fun u => u.assignee == "A")).Pairwise sep15 ∧
    (((scheduleTasks 0 [tsk1, tsk1] 1000000 c817).getD []).filter
      (fun u => u.assignee == "A")).Pairwise sep15 :=
  ⟨c2_theorem.1 0 [tsk1, tsk1] 1000000 c817 "A" (by decide),
    c2_theorem.2 0 [tsk1, tsk1] 1000000 c817
      ((scheduleTasks 0 [tsk1, tsk1] 1000000 c817).getD []) "A" (by decide)
      (by decide)⟩

/-! ## Claim C3 -/

/-- C3, counterexample: `validateAndRepairPlan` keeps candidate-provided
parseable timestamps untouched, so a record arriving with
`start = 0, end = 99999` and `estimatedMinutes = 60` is returned as-is and
violates `end = start + estimatedMinutes`. -/
theorem c3_counterexample :
    validateAndRepairPlan 0
        [⟨some 1, some "T", some "D", some "A", some 60,
          some ⟨some 0, some 99999⟩⟩] ["A"] 1 9 =
      [⟨1, "T", "D", "A", 60, ⟨0, 99999⟩⟩] ∧
    ¬ (99999 : Int) = 0 + 60 := by decide

/-- C3, amended: `end = start + estimatedMinutes` holds for every subtask a
scheduling pass actually schedules — `rescheduleTasks` unconditionally, the
fallback `scheduleTasks` for every non-skipped task, and the whole fallback
pipeline `generateFallbackPlan` — while decomposition repair guarantees it
only when both candidate timestamps were missing/unparseable and the
provided duration is not negative (otherwise provided timestamps pass
through unrelated to the duration). -/
theorem c3_amended :
    (∀ (now : Int) (ts : List AISubtask) (due : Int) (c : SchedulingConstraints),
      ∀ x ∈ rescheduleTasks now ts due c,
        x.scheduled.stop = x.scheduled.start + x.estimatedMinutes) ∧
    (∀ (now : Int) (ts : List AISubtask) (due : Int) (c : SchedulingConstraints)
      (out : List AISubtask), scheduleTasks now ts due c = some out →
      ∀ x ∈ out, x.assignee ≠ "" → x.estimatedMinutes ≠ 0 →
        x.scheduled.stop = x.scheduled.start + x.estimatedMinutes) ∧
    (∀ (now : Int) (len : Nat) (names : List String) (parts : Int) (sh : Nat)
      (i : Nat) (r : RawSubtask),
      r.scheduled.bind RawScheduled.start = none →
      r.scheduled.bind RawScheduled.stop = none →
      (∀ m, r.estimatedMinutes = some m → 0 ≤ m) →
      (repairOne now len names parts sh i r).scheduled.stop =
        (repairOne now len names parts sh i r).scheduled.start +
          (repairOne now len names parts sh i r).estimatedMinutes) ∧
    (∀ (now : Int) (title desc : String) (parts : Nat)
      (members : List PlanMember) (due : Int) (c : SchedulingConstraints)
      (out : List AISubtask), members ≠ [] →
      (∀ mem ∈ members, mem.name ≠ "") →
      generateFallbackPlan now title desc parts members due c = some out →
      ∀ x ∈ out, x.scheduled.stop = x.scheduled.start + x.estimatedMinutes) := by
  refine ⟨?_, ?_, ?_, ?_⟩
  · intro now ts due c x hx
    unfold rescheduleTasks at hx
    obtain ⟨s0, _, hstop⟩ := rescheduleLoop_mem now due c _ _ x hx
    exact hstop
  · intro now ts due c out h x hx ha hm
    unfold scheduleTasks at h
    exact scheduleTasksLoop_stop now c ts [] out h x hx ha hm
  · intro now len names parts sh i r hs1 hs2 hm
    unfold repairOne validateDateTime
    rw [hs1, hs2]
    simp only [Option.getD_none]
    unfold getDefaultEndTime
    cases he : r.estimatedMinutes with
    | none => rfl
    | some m =>
      have hm2 := hm m he
      simp only [truthyInt]
      by_cases h0 : m = 0
      · rw [if_pos h0, if_neg (by omega)]
      · rw [if_neg h0, if_pos (by omega)]
  · intro now title desc parts members due c out hne hnames h x hx
    unfold generateFallbackPlan scheduleTasks at h
    obtain ⟨tin, htin, ha, hm⟩ :=
      scheduleTasksLoop_fields now c _ [] out h x hx
    obtain ⟨⟨mem, hmem, hname⟩, t0, ht0, hmin⟩ :=
      assignMembersToTasks_assignee _ members hne tin htin
    have ht0min : 1 ≤ t0.estimatedMinutes := by
      rcases List.mem_flatMap.mp ht0 with ⟨p0, hp0, hmemmap⟩
      rcases List.mem_map.mp hmemmap with ⟨pt, hpt, hform⟩
      rw [← hform]
      exact completePartTask_minutes _ _ _ _
        (generatePartTasks_minutes _ _ _ pt hpt)
    apply scheduleTasksLoop_stop now c _ [] out h x hx
    · rw [ha, hname]; exact hnames mem hmem
    · omega

/-- C3, witness for the amended theorem at concrete inputs. -/
theorem c3_amended_witness :
    (((rescheduleTasks 0 [tsk1] 1000000 c817).getD 0 dummyTask).scheduled.stop =
        ((rescheduleTasks 0 [tsk1] 1000000 c817).getD 0 dummyTask).scheduled.start +
          ((rescheduleTasks 0 [tsk1] 1000000 c817).getD 0 dummyTask).estimatedMinutes) ∧
    ((repairOne 0 1 ["A"] 1 9 0
        ⟨some 1, some "T", some "D", some "A", some 60, none⟩).scheduled.stop =
      (repairOne 0 1 ["A"] 1 9 0
        ⟨some 1, some "T", some "D", some "A", some 60, none⟩).scheduled.start +
        (repairOne 0 1 ["A"] 1 9 0
          ⟨some 1, some "T", some "D", some "A", some 60, none⟩).estimatedMinutes) ∧
    (∀ x ∈ (generateFallbackPlan 0 "X" "" 1 [⟨"Alice", none⟩] 1000000 c817).getD [],
      x.scheduled.stop = x.scheduled.start + x.estimatedMinutes) := by
  refine ⟨?_, ?_, ?_⟩
  · exact c3_amended.1 0 [tsk1] 1000000 c817
      ((rescheduleTasks 0 [tsk1] 1000000 c817).getD 0 dummyTask) (by decide)
  · exact c3_amended.2.2.1 0 1 ["A"] 1 9 0
      ⟨some 1, some "T", some "D", some "A", some 60, none⟩ (by decide) (by decide)
      (by intro m hm; injection hm with hh; omega)
  · exact c3_amended.2.2.2 0 "X" "" 1 [⟨"Alice", none⟩] 1000000 c817
      ((generateFallbackPlan 0 "X" "" 1 [⟨"Alice", none⟩] 1000000 c817).getD [])
      (by decide) (by decide) (by decide)

/-! ## Claims C5 and C6 (workload balancer) -/

/-- Input exhibiting the balancer divergence: after the first assignment the
least-loaded name is `"A"` (30 vs 100 minutes), yet the source assigns the
second subtask to `sortedMembers[1] = "B"`. -/
def ts5 : List AISubtask :=
  [⟨1, "t1", "d", "A", 10, ⟨0, 0⟩⟩, ⟨1, "t2", "d", "B", 100, ⟨0, 0⟩⟩,
    ⟨1, "t3", "d", "A", 10, ⟨0, 0⟩⟩]

/-- Input exhibiting the broken convergence bound: both tasks end up on
`"B"`, leaving totals `0` and `101` against a largest task of `100`. -/
def ts6 : List AISubtask :=
  [⟨1, "t1", "d", "A", 100, ⟨0, 0⟩⟩, ⟨1, "t2", "d", "B", 1, ⟨0, 0⟩⟩]

/-- C5: the source `balanceWorkload` (which picks
`sortedMembers[memberIndex % n]`, against its own `Assign to member with
least workload` comment) differs from the spec's always-pick-the-least
algorithm `balanceWorkloadSpec` already on `ts5`: the source yields
`[A, B, A]` where the described algorithm yields `[A, A, B]`. -/
theorem c5_evidence :
    (balanceWorkload ts5).map (·.assignee) = ["A", "B", "A"] ∧
    (balanceWorkloadSpec ts5).map (·.assignee) = ["A", "A", "B"] ∧
    balanceWorkload ts5 ≠ balanceWorkloadSpec ts5 := by decide

/-- C6: on `ts6` the source balancer assigns both tasks to `"B"`, so the
spread of totals across the input's assignee names is `101 - 0 = 101`,
exceeding the largest single duration `100` — the claimed convergence bound
fails on the code (as a consequence of the C5 slip). -/
theorem c6_evidence :
    totalsFor (balanceWorkload ts6) "A" = 0 ∧
    totalsFor (balanceWorkload ts6) "B" = 101 ∧
    (∀ t ∈ ts6, t.estimatedMinutes ≤ 100) ∧
    ¬ (101 - 0 ≤ (100 : Int)) := by decide

/-! ## Claim C7 -/

/-- C7: repair is idempotent — running `validateAndRepairPlan` on the
re-read output of a first run returns the identical list, for every input
whose records are well-formed as the claim demands (in fact for every
input, as `repair_twice` shows; the hypothesis is kept as stated). -/
theorem c7_theorem :
    ∀ (now : Int) (raw : List RawSubtask) (names : List String) (parts : Int)
      (sh : Nat), (∀ r ∈ raw, rawWellFormed names r = true) →
      validateAndRepairPlan now
          ((validateAndRepairPlan now raw names parts sh).map toRaw)
          names parts sh =
        validateAndRepairPlan now raw names parts sh :=
  fun now raw names parts sh _ => repair_twice now names parts sh raw

/-- C7, witness at a concrete well-formed record. -/
theorem c7_witness :
    validateAndRepairPlan 0
        ((validateAndRepairPlan 0
          [⟨some 1, some "T", some "D", some "A", some 60,
            some ⟨some 0, some 60⟩⟩] ["A"] 1 9).map toRaw) ["A"] 1 9 =
      validateAndRepairPlan 0
        [⟨some 1, some "T", some "D", some "A", some 60,
          some ⟨some 0, some 60⟩⟩] ["A"] 1 9 :=
  c7_theorem 0 _ ["A"] 1 9 (by decide)

/-! ## Claim C8 -/

/-- C8: with subtasks, (valid) constraints and member count fixed, moving
the due date later never decreases the reported `availableHours` and never
flips `feasible` from `true` to `false`. -/
theorem c8_theorem :
    ∀ (now : Int) (ts : List AISubtask) (c : SchedulingConstraints) (mc : Nat)
      (due1 due2 : Int), due1 ≤ due2 → c.startHour < c.endHour →
      (validateScheduleFeasibility now ts due1 c mc).availableHours ≤
        (validateScheduleFeasibility now ts due2 c mc).availableHours ∧
      ((validateScheduleFeasibility now ts due1 c mc).feasible = true →
        (validateScheduleFeasibility now ts due2 c mc).feasible = true) := by
  intro now ts c mc due1 due2 hdue hlt
  have hmono := calculateAvailableHours_mono now c (le_of_lt hlt) hdue
  have hmc : (0 : Int) ≤ (mc : Int) := by positivity
  have hInt : calculateAvailableHours now due1 c * (mc : Int) ≤
      calculateAvailableHours now due2 c * (mc : Int) :=
    mul_le_mul_of_nonneg_right hmono hmc
  have hQ : ((calculateAvailableHours now due1 c * (mc : Int) : Int) : ℚ) ≤
      ((calculateAvailableHours now due2 c * (mc : Int) : Int) : ℚ) := by
    exact_mod_cast hInt
  constructor
  · simpa [validateScheduleFeasibility] using hQ
  · intro hf
    unfold validateScheduleFeasibility at hf ⊢
    simp only at hf ⊢
    have hp := of_decide_eq_true hf
    apply decide_eq_true
    calc ((((ts.map (·.estimatedMinutes)).sum : Int) : ℚ) / 60)
        ≤ ((calculateAvailableHours now due1 c * (mc : Int) : Int) : ℚ) *
            (4 / 5 : ℚ) := hp
      _ ≤ ((calculateAvailableHours now due2 c * (mc : Int) : Int) : ℚ) *
            (4 / 5 : ℚ) := by
          apply mul_le_mul_of_nonneg_right hQ
          norm_num

/-- C8, witness at concrete inputs. -/
theorem c8_witness :
    (validateScheduleFeasibility 0 [tsk1] 1000 c817 1).availableHours ≤
      (validateScheduleFeasibility 0 [tsk1] 5000 c817 1).availableHours ∧
    ((validateScheduleFeasibility 0 [tsk1] 1000 c817 1).feasible = true →
      (validateScheduleFeasibility 0 [tsk1] 5000 c817 1).feasible = true) :=
  c8_theorem 0 [tsk1] c817 1 1000 5000 (by decide) (by decide)

/-! ## Claim C9 -/

/-- C9: the scheduling passes always run to completion under valid
constraints.  The fallback `scheduleTasks` fold — whose only unbounded
source loop is the working-day search — returns a result (is `some`, i.e.
its per-task fuel of 7 day-advances suffices) for every input whenever
`daysOfWeek` is a non-empty subset of `0..6`; and the due-date-guarded day
loop inside `rescheduleTasks`' `findNextWorkingSlot` always reaches its
exit condition under its wrapper fuel, so the per-task work of both passes
is a constant number of steps per subtask. -/
theorem c9_theorem :
    (∀ (now : Int) (ts : List AISubtask) (due : Int) (c : SchedulingConstraints),
      daysValid c.daysOfWeek → c.startHour ≤ 23 →
      (scheduleTasks now ts due c).isSome) ∧
    (∀ (s due : Int) (c : SchedulingConstraints),
      dayOfWeekN (findNextWorkingSlot s due c) ∈ c.daysOfWeek ∨
        ¬ findNextWorkingSlot s due c < due) :=
  ⟨fun now ts due c hv hsh => scheduleTasksLoop_isSome now c hv hsh ts [],
    fun s due c => findNextWorkingSlot_exit s due c⟩

/-- C9, witness at concrete inputs. -/
theorem c9_witness :
    (scheduleTasks 0 [tsk1] 0 c817).isSome ∧
    (dayOfWeekN (findNextWorkingSlot 0 0 c817) ∈ c817.daysOfWeek ∨
      ¬ findNextWorkingSlot 0 0 c817 < 0) :=
  ⟨c9_theorem.1 0 [tsk1] 0 c817 (by decide) (by decide),
    c9_theorem.2 0 0 c817⟩

/-! ## Claim C10 -/

/-- C10: at the heap level, `balanceWorkload` returns the same pointer
sequence it was given (the fresh array holds the very task records passed
in, so the caller's original list shows the reassigned assignees), leaves
every record outside the list untouched, and changes no field other than
`assignee` on any record. -/
theorem c10_theorem :
    ∀ (store : Nat → AISubtask) (ptrs : List Nat),
      (balanceWorkloadStore store ptrs).2 = ptrs ∧
      (∀ q, sameButAssignee ((balanceWorkloadStore store ptrs).1 q) (store q)) ∧
      (∀ q, q ∉ ptrs → (balanceWorkloadStore store ptrs).1 q = store q) := by
  intro store ptrs
  refine ⟨rfl, ?_, ?_⟩
  · intro q
    exact (storeBalanceLoop_frame ptrs _ _ 0 store q).1
  · intro q hq
    exact (storeBalanceLoop_frame ptrs _ _ 0 store q).2 hq

/-- C10, witness at a concrete heap. -/
theorem c10_witness :
    (balanceWorkloadStore (fun _ => tsk1) [0]).2 = [0] ∧
    sameButAssignee ((balanceWorkloadStore (fun _ => tsk1) [0]).1 5) tsk1 ∧
    (balanceWorkloadStore (fun _ => tsk1) [0]).1 5 = tsk1 :=
  ⟨(c10_theorem (fun _ => tsk1) [0]).1,
    (c10_theorem (fun _ => tsk1) [0]).2.1 5,
    (c10_theorem (fun _ => tsk1) [0]).2.2 5 (by decide)⟩

/-! ## Claim C4 -/

theorem nextWorkingDayLoop_of_mem (days : List Nat) (sh : Nat) (s : Int)
    (h : dayOfWeekN s ∈ days) :
    ∀ n : Nat, nextWorkingDayLoop days sh n s = some s := by
  intro n
  cases n with
  | zero => unfold nextWorkingDayLoop; rw [if_pos h]
  | succ n => unfold nextWorkingDayLoop; rw [if_pos h]

/-- One non-skipped step of the fallback scheduling fold, given the
resolved working-day slot and a fitting duration. -/
theorem scheduleTasksLoop_step (now : Int) (c : SchedulingConstraints)
    (t : AISubtask) (rest : List AISubtask) (sched : List (String × Int))
    (s1 : Int) (hna : t.assignee ≠ "") (hnm : t.estimatedMinutes ≠ 0)
    (hs1 : nextWorkingDayLoop c.daysOfWeek c.startHour 7
      (cursorOr sched t.assignee (atHour (now + 1440) c.startHour)) = some s1)
    (hfit : ¬ setHour s1 c.endHour < s1 + t.estimatedMinutes) :
    scheduleTasksLoop now c (t :: rest) sched =
      (scheduleTasksLoop now c rest
        (upsert sched t.assignee (s1 + t.estimatedMinutes + 15))).map
        (List.cons { t with scheduled := ⟨s1, s1 + t.estimatedMinutes⟩ }) := by
  simp only [scheduleTasksLoop]
  rw [if_neg (show ¬ (t.assignee = "" ∨ t.estimatedMinutes = 0) from
    fun hc => hc.elim hna hnm)]
  rw [hs1]
  simp only
  rw [if_neg hfit]

/-- First fallback subtask of the spec's scenario, before scheduling. -/
def fb1 (now : Int) : AISubtask :=
  ⟨1, "Part 1: Research and Planning",
    "Initial research and planning phase for X", "Alice", 120,
    ⟨now + 1440, now + 1440 + 60⟩⟩

/-- Second fallback subtask of the spec's scenario, before scheduling. -/
def fb2 (now : Int) : AISubtask :=
  ⟨1, "Part 1: Analysis and Investigation",
    "Detailed analysis of requirements for X", "Alice", 180,
    ⟨now + 1440, now + 1440 + 60⟩⟩

/-- Remaining six fallback subtasks of the scenario, before scheduling. -/
def fbRest6 (now : Int) : List AISubtask :=
  [⟨1, "Part 1: Development and Creation",
    "Main development or creation work for X", "Alice", 240,
    ⟨now + 1440, now + 1440 + 60⟩⟩,
   ⟨1, "Part 1: Review and Testing", "Quality review and testing for X",
    "Alice", 90, ⟨now + 1440, now + 1440 + 60⟩⟩,
   ⟨1, "Part 1: Documentation", "Create documentation and reports for X",
    "Alice", 60, ⟨now + 1440, now + 1440 + 60⟩⟩,
   ⟨1, "Part 1: Finalization", "Final review and polish for X", "Alice", 60,
    ⟨now + 1440, now + 1440 + 60⟩⟩,
   ⟨1, "Part 1: Research and Planning",
    "Initial research and planning phase for X", "Alice", 120,
    ⟨now + 1440, now + 1440 + 60⟩⟩,
   ⟨1, "Part 1: Analysis and Investigation",
    "Detailed analysis of requirements for X", "Alice", 180,
    ⟨now + 1440, now + 1440 + 60⟩⟩]

/-- The full list the scenario's fallback run hands to its scheduler. -/
def fbTasks (now : Int) : List AISubtask := fb1 now :: fb2 now :: fbRest6 now

/-- C4, counterexample: the scenario's fallback decomposition (`parts = 1`,
one member `"Alice"`, constraints `{8, 9, 17, [1..5]}`, title `"X"`)
produces `max(2, ⌊8/1⌋) = 8` subtasks, not the 2 the claim expects. -/
theorem c4_counterexample :
    (generateFallbackPlan 0 "X" "" 1 [⟨"Alice", none⟩] 100000 c817).map
        List.length = some 8 ∧ (8 : Nat) ≠ 2 := by decide

/-- C4, amended: for every current time and due date, the scenario's
fallback run yields exactly 8 subtasks, the first two being
"Part 1: Research and Planning" (120 min) and
"Part 1: Analysis and Investigation" (180 min), both assigned to "Alice",
the second starting exactly 15 minutes after the first ends, and both lying
inside 09:00–17:00 of one working day listed in the constraints. -/
theorem c4_amended :
    ∀ (now due : Int), ∃ out : List AISubtask,
      generateFallbackPlan now "X" "" 1 [⟨"Alice", none⟩] due c817 = some out ∧
      out.length = 8 ∧
      ∃ (t1 t2 : AISubtask) (rest : List AISubtask), out = t1 :: t2 :: rest ∧
        t1.title = "Part 1: Research and Planning" ∧
        t1.estimatedMinutes = 120 ∧ t1.assignee = "Alice" ∧
        t2.title = "Part 1: Analysis and Investigation" ∧
        t2.estimatedMinutes = 180 ∧ t2.assignee = "Alice" ∧
        t2.scheduled.start = t1.scheduled.stop + 15 ∧
        ∀ u ∈ [t1, t2],
          dayOfWeekN u.scheduled.start ∈ c817.daysOfWeek ∧
          540 ≤ tod u.scheduled.start ∧
          u.scheduled.stop = u.scheduled.start + u.estimatedMinutes ∧
          tod u.scheduled.stop ≤ 1020 ∧
          dayNumber u.scheduled.stop = dayNumber u.scheduled.start := by
  intro now due
  have hv : daysValid c817.daysOfWeek := by decide
  have hsh : c817.startHour ≤ 23 := by decide
  obtain ⟨s1, hs1⟩ := Option.isSome_iff_exists.mp
    (nextWorkingDayLoop_isSome c817.daysOfWeek hsh hv
      (cursorOr [] (fb1 now).assignee (atHour (now + 1440) c817.startHour)))
  have hbase : cursorOr [] (fb1 now).assignee
      (atHour (now + 1440) c817.startHour) =
      atHour (now + 1440) c817.startHour := rfl
  have hday1 : dayOfWeekN s1 ∈ c817.daysOfWeek :=
    nextWorkingDayLoop_mem _ _ 7 _ s1 hs1
  have htod1 : s1 % 1440 = 540 := by
    rcases (nextWorkingDayLoop_ge c817.daysOfWeek hsh 7 _ s1 hs1).2 with h | h
    · rw [h, hbase]
      have h2 := tod_atHour (now + 1440) hsh
      unfold tod at h2
      rw [h2]; decide
    · unfold tod at h; rw [h]; decide
  have hday2 : dayOfWeekN (s1 + 120 + 15) = dayOfWeekN s1 :=
    dayOfWeekN_eq_of_dayNumber _ _ (by unfold dayNumber; omega)
  have hfit1 : ¬ setHour s1 c817.endHour < s1 + (fb1 now).estimatedMinutes := by
    show ¬ setHour s1 c817.endHour < s1 + 120
    have h17 : ((c817.endHour : Nat) : Int) = 17 := rfl
    unfold setHour dayStart
    omega
  have hna1 : (fb1 now).assignee ≠ "" := by intro h; simp [fb1] at h
  have hnm1 : (fb1 now).estimatedMinutes ≠ 0 := by intro h; simp [fb1] at h
  have hna2 : (fb2 now).assignee ≠ "" := by intro h; simp [fb2] at h
  have hnm2 : (fb2 now).estimatedMinutes ≠ 0 := by intro h; simp [fb2] at h
  have e1 := scheduleTasksLoop_step now c817 (fb1 now) (fb2 now :: fbRest6 now)
    [] s1 hna1 hnm1 hs1 hfit1
  have hs2 : nextWorkingDayLoop c817.daysOfWeek c817.startHour 7
      (cursorOr (upsert [] (fb1 now).assignee
          (s1 + (fb1 now).estimatedMinutes + 15)) (fb2 now).assignee
        (atHour (now + 1440) c817.startHour)) = some (s1 + 120 + 15) := by
    have hcur : cursorOr (upsert [] (fb1 now).assignee
        (s1 + (fb1 now).estimatedMinutes + 15)) (fb2 now).assignee
        (atHour (now + 1440) c817.startHour) = s1 + 120 + 15 := rfl
    rw [hcur]
    exact nextWorkingDayLoop_of_mem c817.daysOfWeek c817.startHour _
      (hday2 ▸ hday1) 7
  have hfit2 : ¬ setHour (s1 + 120 + 15) c817.endHour <
      (s1 + 120 + 15) + (fb2 now).estimatedMinutes := by
    show ¬ setHour (s1 + 120 + 15) c817.endHour < (s1 + 120 + 15) + 180
    have h17 : ((c817.endHour : Nat) : Int) = 17 := rfl
    unfold setHour dayStart
    omega
  have e2 := scheduleTasksLoop_step now c817 (fb2 now) (fbRest6 now)
    (upsert [] (fb1 now).assignee (s1 + (fb1 now).estimatedMinutes + 15))
    (s1 + 120 + 15) hna2 hnm2 hs2 hfit2
  obtain ⟨out2, hout2⟩ := Option.isSome_iff_exists.mp
    (scheduleTasksLoop_isSome now c817 hv hsh (fbRest6 now)
      (upsert (upsert [] (fb1 now).assignee (s1 + (fb1 now).estimatedMinutes + 15))
        (fb2 now).assignee ((s1 + 120 + 15) + (fb2 now).estimatedMinutes + 15)))
  have hlen2 : out2.length = 6 :=
    (scheduleTasksLoop_length now c817 (fbRest6 now) _ out2 hout2).trans rfl
  have hfold : generateFallbackPlan now "X" "" 1 [⟨"Alice", none⟩] due c817 =
      some (({ fb1 now with scheduled :=
          ⟨s1, s1 + (fb1 now).estimatedMinutes⟩ } : AISubtask) ::
        ({ fb2 now with scheduled :=
          ⟨s1 + 120 + 15, (s1 + 120 + 15) + (fb2 now).estimatedMinutes⟩ } :
            AISubtask) :: out2) := by
    calc generateFallbackPlan now "X" "" 1 [⟨"Alice", none⟩] due c817
        = scheduleTasksLoop now c817 (fbTasks now) [] := rfl
      _ = (scheduleTasksLoop now c817 (fb2 now :: fbRest6 now)
            (upsert [] (fb1 now).assignee
              (s1 + (fb1 now).estimatedMinutes + 15))).map
            (List.cons { fb1 now with scheduled :=
              ⟨s1, s1 + (fb1 now).estimatedMinutes⟩ }) := e1
      _ = ((scheduleTasksLoop now c817 (fbRest6 now)
            (upsert (upsert [] (fb1 now).assignee
                (s1 + (fb1 now).estimatedMinutes + 15))
              (fb2 now).assignee
              ((s1 + 120 + 15) + (fb2 now).estimatedMinutes + 15))).map
            (List.cons { fb2 now with scheduled :=
              ⟨s1 + 120 + 15,
                (s1 + 120 + 15) + (fb2 now).estimatedMinutes⟩ })).map
            (List.cons { fb1 now with scheduled :=
              ⟨s1, s1 + (fb1 now).estimatedMinutes⟩ }) := by rw [e2]
      _ = _ := by rw [hout2]; rfl
  refine ⟨_, hfold, by simp [hlen2], _, _, out2, rfl, rfl, rfl, rfl, rfl, rfl,
    rfl, rfl, ?_⟩
  intro u hu
  have hu2 : u = ({ fb1 now with scheduled :=
      ⟨s1, s1 + (fb1 now).estimatedMinutes⟩ } : AISubtask) ∨
      u = ({ fb2 now with scheduled :=
        ⟨s1 + 120 + 15, (s1 + 120 + 15) + (fb2 now).estimatedMinutes⟩ } :
          AISubtask) := by
    rcases List.mem_cons.mp hu with h | h
    · exact Or.inl h
    · rcases List.mem_cons.mp h with h | h
      · exact Or.inr h
      · simp at h
  rcases hu2 with h | h
  · subst h
    refine ⟨hday1, ?_, rfl, ?_, ?_⟩
    · show (540 : Int) ≤ tod s1
      unfold tod; omega
    · show tod (s1 + 120) ≤ 1020
      unfold tod; omega
    · show dayNumber (s1 + 120) = dayNumber s1
      unfold dayNumber; omega
  · subst h
    refine ⟨?_, ?_, rfl, ?_, ?_⟩
    · show dayOfWeekN (s1 + 120 + 15) ∈ c817.daysOfWeek
      exact hday2 ▸ hday1
    · show (540 : Int) ≤ tod (s1 + 120 + 15)
      unfold tod; omega
    · show tod ((s1 + 120 + 15) + 180) ≤ 1020
      unfold tod; omega
    · show dayNumber ((s1 + 120 + 15) + 180) = dayNumber (s1 + 120 + 15)
      unfold dayNumber; omega

/-- C4, witness for the amended theorem at a concrete current time. -/
theorem c4_amended_witness :
    (generateFallbackPlan 0 "X" "" 1 [⟨"Alice", none⟩] 0 c817).map
      List.length = some 8 := by
  obtain ⟨out, h1, h2, _⟩ := c4_amended 0 0
  rw [h1]
  simp [h2]

end AITeamPlanner
